import Mathlib

/-!
Verification development for the CLIProxyAPI quota-aware routing core.

The Go sources are shallowly embedded: Go strings become `List Char`
(wrapped in `String` at the interface), `time.Time` becomes `Int` epoch
seconds with the Go zero value as a distinguished constant, `float64`
percentages become `ℚ` (exact rationals; the quota values in play are
decimal literals), and the one transcendental computation
(`quotaToWeight`, which calls `math.Exp`) is modelled over `ℝ`.
Go maps are modelled as association lists in a fixed iteration order
(Go map iteration order is unspecified; every property proved here is
insensitive to that order, and each definition documents the
order chosen).  Character-level operations (`strings.ToLower`,
`strings.TrimSpace`) are modelled on their Latin-1 fragment, which
covers every string the quota subsystem manipulates.
-/

namespace CLIProxy

/-- Epoch seconds.  Go `time.Time` is modelled as an `Int` count of seconds. -/
abbrev GoTime := Int

/-- The Go zero `time.Time` (January 1, year 1, 00:00:00 UTC) in epoch seconds. -/
def goZeroTime : GoTime := -62135596800

/-- `t.IsZero()` for the embedded `time.Time`. -/
def GoTime.isZero (t : GoTime) : Bool := t == goZeroTime

/-- Go `unicode.IsSpace` restricted to the Latin-1 range (the fragment
`strings.TrimSpace` exercises on the strings this code handles). -/
def goIsSpace (c : Char) : Bool :=
  c == ' ' || c == '\t' || c == '\n' || c == '\x0b' || c == '\x0c' ||
    c == '\r' || c == '\x85' || c == '\xa0'

/-- Go `unicode.ToLower` on the ASCII fragment. -/
def toLowerChar (c : Char) : Char :=
  if 'A' ≤ c && c ≤ 'Z' then Char.ofNat (c.toNat + 32) else c

/-- `strings.ToLower` (ASCII fragment), at the character-list level. -/
def toLowerList (l : List Char) : List Char := l.map toLowerChar

/-- `strings.TrimSpace`, at the character-list level. -/
def trimList (l : List Char) : List Char :=
  ((l.dropWhile goIsSpace).reverse.dropWhile goIsSpace).reverse

/-- Everything after the last `'/'` (`model[strings.LastIndex(model, "/")+1:]`);
the whole list when no `'/'` occurs. -/
def afterLastSlash (l : List Char) : List Char :=
  match l with
  | [] => []
  | c :: rest =>
      if (rest.contains '/') then afterLastSlash rest
      else if c = '/' then rest
      else c :: rest

/-- `strings.HasSuffix` at the character-list level. -/
def endsWithList (l suffix : List Char) : Bool :=
  decide (suffix.isSuffixOf l)

/-- `strings.TrimSuffix` at the character-list level. -/
def trimSuffixList (l suffix : List Char) : List Char :=
  if endsWithList l suffix then l.take (l.length - suffix.length) else l

/-- The character list of the thinking-suffix marker `"-thinking"`. -/
def thinkingSuffix : List Char := "-thinking".data

/-- Modelled from the spec: `internal/thinking.ParseSuffix` is not among the
source files; only its call sites are.  The spec says normalization strips
thinking-suffix markers, and in-src code handling the same markers uses
`strings.TrimSuffix(model, "-thinking")`.  This model returns the model name
with one trailing `"-thinking"` marker removed, or `""` when no marker is
present (`NormalizeModelKey` keeps the original string in that case). -/
def parseSuffixModelName (l : List Char) : List Char :=
  if endsWithList l thinkingSuffix then trimSuffixList l thinkingSuffix else []

/-- `quota.NormalizeModelKey` on character lists: trim, strip the thinking
suffix, drop the path up to the last `'/'`, trim again, lowercase. -/
def normalizeModelKeyList (l : List Char) : List Char :=
  let l := trimList l
  if l = [] then []
  else
    let l := if parseSuffixModelName l ≠ [] then parseSuffixModelName l else l
    let l := afterLastSlash l
    let l := trimList l
    if l = [] then [] else toLowerList l

/-- `quota.NormalizeModelKey` (sdk/cliproxy/quota/normalize.go). -/
def NormalizeModelKey (model : String) : String :=
  ⟨normalizeModelKeyList model.data⟩

/-- Left-trim. -/
def trimLeft (l : List Char) : List Char := l.dropWhile goIsSpace

/-- Right-trim. -/
def trimRight (l : List Char) : List Char := (l.reverse.dropWhile goIsSpace).reverse

/-- String-level `strings.TrimSpace`. -/
def trimStr (s : String) : String := ⟨trimList s.data⟩

/-- String-level `strings.ToLower` (ASCII fragment). -/
def toLowerStr (s : String) : String := ⟨toLowerList s.data⟩

/-- Numeric value of a digit list (most significant first); caller checks digits. -/
def natOfDigits (l : List Char) : Nat :=
  l.foldl (fun acc c => acc * 10 + (c.toNat - '0'.toNat)) 0

/-- Exact decimal number `mant / 10 ^ exp`, the embedding of Go `float64`
values (every `float64` is a finite binary — hence finite decimal —
fraction).  Kept unnormalized so that all operations are kernel-computable;
equality and order are by cross-multiplication. -/
structure GoFloat where
  mant : Int
  exp : Nat
deriving Repr, DecidableEq

/-- The rational value of an embedded float. -/
def GoFloat.toRat (x : GoFloat) : ℚ := (x.mant : ℚ) / (10 : ℚ) ^ x.exp

/-- The real value of an embedded float. -/
noncomputable def GoFloat.toReal (x : GoFloat) : ℝ := (x.mant : ℝ) / (10 : ℝ) ^ x.exp

/-- Float from an integer. -/
def GoFloat.ofInt (n : Int) : GoFloat := ⟨n, 0⟩

/-- Value equality (`==` on Go floats). -/
def GoFloat.beq (a b : GoFloat) : Bool :=
  a.mant * 10 ^ b.exp == b.mant * 10 ^ a.exp

/-- Value order (`<=` on Go floats). -/
def GoFloat.ble (a b : GoFloat) : Bool :=
  decide (a.mant * 10 ^ b.exp ≤ b.mant * 10 ^ a.exp)

/-- Value order (`<` on Go floats). -/
def GoFloat.blt (a b : GoFloat) : Bool :=
  decide (a.mant * 10 ^ b.exp < b.mant * 10 ^ a.exp)

/-- Exact subtraction. -/
def GoFloat.sub (a b : GoFloat) : GoFloat :=
  ⟨a.mant * 10 ^ b.exp - b.mant * 10 ^ a.exp, a.exp + b.exp⟩

/-- `math.Abs`. -/
def GoFloat.abs (a : GoFloat) : GoFloat := ⟨|a.mant|, a.exp⟩

/-- `strconv.ParseFloat` on plain decimal notation
(optional sign, digits, optional fraction, optional exponent).
The special forms `Inf`/`NaN`/hex floats are rejected; the quota code never
receives them. -/
def parseFloat (l : List Char) : Option GoFloat :=
  let (sign, rest) : Int × List Char :=
    match l with
    | '+' :: r => (1, r)
    | '-' :: r => (-1, r)
    | r => (1, r)
  let intPart := rest.takeWhile Char.isDigit
  let rest := rest.dropWhile Char.isDigit
  let (fracPart, rest) :=
    match rest with
    | '.' :: r => (r.takeWhile Char.isDigit, r.dropWhile Char.isDigit)
    | r => ([], r)
  if intPart = [] ∧ fracPart = [] then none
  else
    let mant : Int :=
      sign * ((natOfDigits intPart : Int) * 10 ^ fracPart.length + natOfDigits fracPart)
    let base : GoFloat := ⟨mant, fracPart.length⟩
    match rest with
    | [] => some base
    | e :: r =>
        if e = 'e' ∨ e = 'E' then
          let (esign, r) : Bool × List Char :=
            match r with
            | '+' :: r2 => (false, r2)
            | '-' :: r2 => (true, r2)
            | r2 => (false, r2)
          if r ≠ [] ∧ r.all Char.isDigit then
            let ex := natOfDigits r
            some (if esign then ⟨base.mant, base.exp + ex⟩ else ⟨base.mant * 10 ^ ex, base.exp⟩)
          else none
        else none

/-- Gregorian leap year. -/
def isLeapYear (y : Int) : Bool :=
  (y % 4 == 0 && y % 100 != 0) || y % 400 == 0

/-- Number of days in a month. -/
def daysInMonth (y : Int) (m : Nat) : Nat :=
  if m = 2 then (if isLeapYear y then 29 else 28)
  else if m = 4 ∨ m = 6 ∨ m = 9 ∨ m = 11 then 30
  else 31

/-- Days since the Unix epoch of a civil date (standard era-based formula). -/
def daysFromCivil (y : Int) (m d : Nat) : Int :=
  let y' : Int := if m ≤ 2 then y - 1 else y
  let era : Int := (if 0 ≤ y' then y' else y' - 399) / 400
  let yoe : Int := y' - era * 400
  let mp : Int := if 2 < m then (m : Int) - 3 else (m : Int) + 9
  let doy : Int := (153 * mp + 2) / 5 + (d : Int) - 1
  let doe : Int := yoe * 365 + yoe / 4 - yoe / 100 + doy
  era * 146097 + doe - 719468

/-- Civil date from days since the Unix epoch (inverse of `daysFromCivil`). -/
def civilFromDays (z₀ : Int) : Int × Nat × Nat :=
  let z : Int := z₀ + 719468
  let era : Int := (if 0 ≤ z then z else z - 146096) / 146097
  let doe : Int := z - era * 146097
  let yoe : Int := (doe - doe / 1460 + doe / 36524 - doe / 146096) / 365
  let y : Int := yoe + era * 400
  let doy : Int := doe - (365 * yoe + yoe / 4 - yoe / 100)
  let mp : Int := (5 * doy + 2) / 153
  let d : Int := doy - (153 * mp + 2) / 5 + 1
  let m : Int := if mp < 10 then mp + 3 else mp - 9
  (y + (if m ≤ 2 then 1 else 0), m.toNat, d.toNat)

/-- Parse exactly `n` digits from the front; returns the value and the rest. -/
def takeDigits (n : Nat) (l : List Char) : Option (Nat × List Char) :=
  let ds := l.take n
  if ds.length = n ∧ ds.all Char.isDigit then some (natOfDigits ds, l.drop n)
  else none

/-- Time-zone designator of an RFC3339 timestamp: `Z` or `±HH:MM`,
as seconds east of UTC. -/
def parseTZOffset (l : List Char) : Option Int :=
  match l with
  | ['Z'] => some 0
  | c :: r =>
      if c = '+' ∨ c = '-' then
        match takeDigits 2 r with
        | some (oh, r) =>
            match r with
            | ':' :: r2 =>
                match takeDigits 2 r2 with
                | some (om, r3) =>
                    if r3 = [] ∧ oh ≤ 23 ∧ om ≤ 59 then
                      some ((if c = '-' then (-1 : Int) else 1) *
                        ((oh : Int) * 3600 + (om : Int) * 60))
                    else none
                | none => none
            | _ => none
        | none => none
      else none
  | _ => none

/-- `time.Parse(time.RFC3339, _)` / `RFC3339Nano`: accepts
`YYYY-MM-DDTHH:MM:SS[.fraction](Z|±HH:MM)` and yields epoch seconds
(fractional seconds are truncated — the embedding is second-granular). -/
def parseRFC3339 (l : List Char) : Option GoTime := do
  let (year, l) ← takeDigits 4 l
  let l ← match l with | '-' :: r => pure r | _ => none
  let (month, l) ← takeDigits 2 l
  let l ← match l with | '-' :: r => pure r | _ => none
  let (day, l) ← takeDigits 2 l
  let l ← match l with | 'T' :: r => pure r | _ => none
  let (hour, l) ← takeDigits 2 l
  let l ← match l with | ':' :: r => pure r | _ => none
  let (minute, l) ← takeDigits 2 l
  let l ← match l with | ':' :: r => pure r | _ => none
  let (second, l) ← takeDigits 2 l
  let l ← match l with
    | '.' :: r =>
        let frac := r.takeWhile Char.isDigit
        if frac = [] then none else pure (r.dropWhile Char.isDigit)
    | r => pure r
  let offset ← parseTZOffset l
  if 1 ≤ month ∧ month ≤ 12 ∧ 1 ≤ day ∧ day ≤ daysInMonth year month ∧
      hour ≤ 23 ∧ minute ≤ 59 ∧ second ≤ 59 then
    pure (daysFromCivil year month day * 86400 +
      (hour : Int) * 3600 + minute * 60 + second - offset)
  else none

/-- Decimal rendering of a natural, left-padded with zeros to width `w`. -/
def padNat (w n : Nat) : String :=
  let s := toString n
  ⟨List.replicate (w - s.length) '0' ++ s.data⟩

/-- `Format(time.RFC3339Nano)` for a UTC whole-second instant:
`YYYY-MM-DDTHH:MM:SSZ` (Go omits the fractional part when it is zero). -/
def formatRFC3339 (t : GoTime) : String :=
  let days := t / 86400
  let secs := (t % 86400).toNat
  let (y, m, d) := civilFromDays days
  padNat 4 y.toNat ++ "-" ++ padNat 2 m ++ "-" ++ padNat 2 d ++ "T" ++
    padNat 2 (secs / 3600) ++ ":" ++ padNat 2 (secs % 3600 / 60) ++ ":" ++
    padNat 2 (secs % 60) ++ "Z"

/-- Dynamic Go value: the union of what the quota code stores in
`map[string]any` metadata and what `gjson` yields from a JSON body.
(`time` covers `time.Time` values held directly in metadata maps.) -/
inductive GoVal where
  | null
  | boolean (b : Bool)
  | num (q : GoFloat)
  | str (s : String)
  | time (t : GoTime)
  | arr (items : List GoVal)
  | obj (fields : List (String × GoVal))

/-- First binding of `k` in an association list of fields. -/
def lookupField (fields : List (String × GoVal)) (k : String) : Option GoVal :=
  match fields with
  | [] => none
  | (k', v) :: rest => if k' = k then some v else lookupField rest k

/-- Insert-or-replace a binding, keeping the original position on update
(Go map assignment; list position models first-insertion order). -/
def setField (fields : List (String × GoVal)) (k : String) (v : GoVal) :
    List (String × GoVal) :=
  match fields with
  | [] => [(k, v)]
  | (k', v') :: rest =>
      if k' = k then (k', v) :: rest else (k', v') :: setField rest k v

/-- `gjson` `Get` with a single-key path: field lookup on objects. -/
def GoVal.get (v : GoVal) (k : String) : Option GoVal :=
  match v with
  | .obj fields => lookupField fields k
  | _ => none

/-- `gjson.Result.Float()`. -/
def gjsonFloat (v : GoVal) : GoFloat :=
  match v with
  | .num q => q
  | .str s => (parseFloat s.data).getD ⟨0, 0⟩
  | .boolean true => ⟨1, 0⟩
  | _ => ⟨0, 0⟩

/-- `gjson.Result.String()`.  For numbers gjson returns the raw JSON text;
integers render identically here and non-integers render as a fraction —
either way a nonempty non-RFC3339 string, which is all the call sites
depend on. -/
def gjsonString (v : GoVal) : String :=
  match v with
  | .str s => s
  | .num q => if q.exp = 0 then toString q.mant else toString q.mant ++ "e-" ++ toString q.exp
  | .boolean true => "true"
  | .boolean false => "false"
  | _ => ""

/-- `quota.ModelQuota`: one quota snapshot for a model. -/
structure ModelQuota where
  percent : GoFloat
  updatedAt : GoTime := goZeroTime
  resetTime : GoTime := goZeroTime
deriving Repr, DecidableEq

/-- `quota.clampPercent`: clamp to `[0, 100]`. -/
def clampPercent (value : GoFloat) : GoFloat :=
  if value.blt (GoFloat.ofInt 0) then GoFloat.ofInt 0
  else if (GoFloat.ofInt 100).blt value then GoFloat.ofInt 100
  else value

/-- `map[string]ModelQuota`, as an association list in iteration order. -/
abbrev QuotaMap := List (String × ModelQuota)

/-- Go map read. -/
def lookupQM (m : QuotaMap) (k : String) : Option ModelQuota :=
  match m with
  | [] => none
  | (k', v) :: rest => if k' = k then some v else lookupQM rest k

/-- Go map assignment (replace in place, else append). -/
def setQM (m : QuotaMap) (k : String) (v : ModelQuota) : QuotaMap :=
  match m with
  | [] => [(k, v)]
  | (k', v') :: rest =>
      if k' = k then (k', v) :: rest else (k', v') :: setQM rest k v

/-- `quota.normalizeModelQuotaMap` (store side): normalize keys, drop empty
keys, clamp percents, and on key collision keep the entry with the strictly
higher percent (first seen wins ties).  The incoming Go map is iterated in
list order. -/
def normalizeModelQuotaMap (models : QuotaMap) : QuotaMap :=
  if models = [] then []
  else
    models.foldl
      (fun out kv =>
        let key := NormalizeModelKey kv.1
        if key = "" then out
        else
          let entry := { kv.2 with percent := clampPercent kv.2.percent }
          match lookupQM out key with
          | some existing =>
              if entry.percent.ble existing.percent then out
              else setQM out key entry
          | none => setQM out key entry)
      []

/-- `quota.modelQuotaMapEqual`: same size and, per key, exactly equal percent
and reset instant. -/
def modelQuotaMapEqual (a b : QuotaMap) : Bool :=
  a.length == b.length &&
    a.all fun kv =>
      match lookupQM b kv.1 with
      | some right => kv.2.percent.beq right.percent && kv.2.resetTime == right.resetTime
      | none => false

/-- `quota.StoreEntry`. -/
structure StoreEntry where
  provider : String
  updatedAt : GoTime
  models : QuotaMap
deriving Repr, DecidableEq

/-- `quota.Store` (file path and lock omitted: pure state). -/
structure Store where
  authQuotas : List (String × StoreEntry)
  dirty : Bool
deriving Repr, DecidableEq

/-- Go map read for store entries. -/
def lookupSE (m : List (String × StoreEntry)) (k : String) : Option StoreEntry :=
  match m with
  | [] => none
  | (k', v) :: rest => if k' = k then some v else lookupSE rest k

/-- Go map assignment for store entries. -/
def setSE (m : List (String × StoreEntry)) (k : String) (v : StoreEntry) :
    List (String × StoreEntry) :=
  match m with
  | [] => [(k, v)]
  | (k', v') :: rest =>
      if k' = k then (k', v) :: rest else (k', v') :: setSE rest k v

/-- `Store.Set`: returns `(changed, new store)`. -/
def Store.set (s : Store) (authID provider : String) (models : QuotaMap)
    (updatedAt : GoTime) : Bool × Store :=
  if authID = "" ∨ models = [] then (false, s)
  else
    let normalized := normalizeModelQuotaMap models
    if normalized = [] then (false, s)
    else
      let entry : StoreEntry :=
        { provider := provider, updatedAt := updatedAt, models := normalized }
      let replaced : Store :=
        { authQuotas := setSE s.authQuotas authID entry, dirty := true }
      match lookupSE s.authQuotas authID with
      | some existing =>
          if existing.provider = provider ∧ modelQuotaMapEqual existing.models normalized then
            (false, s)
          else
            (true, replaced)
      | none => (true, replaced)

/-- `Store.GetPercent`: stored percent for the normalized key, falling back
to the wildcard key `*`. -/
def Store.getPercent (s : Store) (authID model : String) : Option GoFloat :=
  match lookupSE s.authQuotas authID with
  | none => none
  | some entry =>
      let lookup := NormalizeModelKey model
      let lookup := if lookup = "" then "*" else lookup
      match lookupQM entry.models lookup with
      | some mq => some (clampPercent mq.percent)
      | none =>
          match lookupQM entry.models "*" with
          | some mq => some (clampPercent mq.percent)
          | none => none

/-- Modelled from the spec: `Store.GetModelQuota` is called by the
quota-weighted selector but its definition is not among the source files.
Per §4.2 it is the entry-returning analog of `GetPercent`: the stored entry
for the normalized key, falling back to the wildcard key `*`. -/
def Store.getModelQuota (s : Store) (authID model : String) : Option ModelQuota :=
  match lookupSE s.authQuotas authID with
  | none => none
  | some entry =>
      let lookup := NormalizeModelKey model
      let lookup := if lookup = "" then "*" else lookup
      match lookupQM entry.models lookup with
      | some mq => some mq
      | none => lookupQM entry.models "*"

/-- `auth.Metadata` (`map[string]any`), in iteration order.  A `none`
metadata models the Go `nil` map. -/
abbrev Metadata := List (String × GoVal)

/-- `quota.readFloat` on the dynamic values metadata can hold. -/
def readFloat (value : Option GoVal) : Option GoFloat :=
  match value with
  | some (.num q) => some q
  | some (.str s) => parseFloat (trimList s.data)
  | _ => none

/-- `quota.parseTime`: a `time.Time` held directly, or an RFC3339 string;
anything else (and unparseable strings) yields the zero time. -/
def parseTime (value : Option GoVal) : GoTime :=
  match value with
  | some (.time t) => t
  | some (.str s) =>
      let ts := trimList s.data
      if ts = [] then goZeroTime
      else
        match parseRFC3339 ts with
        | some t => t
        | none => goZeroTime
  | _ => goZeroTime

/-- `quota.readModelQuota`: an object needs a readable `percent` (reset time
optional); a bare number is a percent-only entry. -/
def readModelQuota (value : GoVal) : Option ModelQuota :=
  match value with
  | .obj fields =>
      match readFloat (lookupField fields "percent") with
      | some percent =>
          some { percent := clampPercent percent,
                 resetTime := parseTime (lookupField fields "reset_time") }
      | none => none
  | v =>
      match readFloat (some v) with
      | some percent => some { percent := clampPercent percent }
      | none => none

/-- `quota.GetModelQuotaFromMetadata`: look under `cliproxy_quota → models`
for the normalized key, then the wildcard key `*`. -/
def GetModelQuotaFromMetadata (metadata : Option Metadata) (model : String) :
    Option ModelQuota :=
  match metadata with
  | none => none
  | some md =>
      match lookupField md "cliproxy_quota" with
      | some (.obj snapshot) =>
          match lookupField snapshot "models" with
          | some (.obj rawModels) =>
              let lookup := NormalizeModelKey model
              let lookup := if lookup = "" then "*" else lookup
              let direct :=
                match lookupField rawModels lookup with
                | some entry => readModelQuota entry
                | none => none
              match direct with
              | some q => some q
              | none =>
                  match lookupField rawModels "*" with
                  | some entry => readModelQuota entry
                  | none => none
          | _ => none
      | _ => none

/-- `quota.GetPercentFromMetadata`. -/
def GetPercentFromMetadata (metadata : Option Metadata) (model : String) :
    Option GoFloat :=
  match GetModelQuotaFromMetadata metadata model with
  | some entry => some (clampPercent entry.percent)
  | none => none

/-- `quota.normalizeModelQuota` (metadata side); its body in the source is
identical to the store's `normalizeModelQuotaMap`. -/
def normalizeModelQuota (models : QuotaMap) : QuotaMap :=
  normalizeModelQuotaMap models

/-- `quota.parseSnapshotModels`: read the serialized `models` object back
into a quota map (normalized keys, clamped percents; plain Go map
assignment, so a later duplicate overwrites). -/
def parseSnapshotModels (raw : Option GoVal) : QuotaMap :=
  match raw with
  | some (.obj typed) =>
      typed.foldl
        (fun out kv =>
          match kv.2 with
          | .obj item =>
              match readFloat (lookupField item "percent") with
              | some percent =>
                  let reset := parseTime (lookupField item "reset_time")
                  let modelKey := NormalizeModelKey kv.1
                  if modelKey = "" then out
                  else setQM out modelKey { percent := clampPercent percent, resetTime := reset }
              | none => out
          | _ => out)
        []
  | _ => []

/-- `quota.timeEqual`. -/
def timeEqual (a b : GoTime) : Bool :=
  (a.isZero && b.isZero) || a == b

/-- `quota.quotaEqualEpsilon = 1e-4`. -/
def quotaEqualEpsilon : GoFloat := ⟨1, 4⟩

/-- `quota.modelQuotaEqual`: same size and, per key, percent within `1e-4`
and equal reset instant. -/
def modelQuotaEqual (a b : QuotaMap) : Bool :=
  a.length == b.length &&
    a.all fun kv =>
      match lookupQM b kv.1 with
      | some right =>
          !(quotaEqualEpsilon.blt ((kv.2.percent.sub right.percent).abs)) &&
            timeEqual kv.2.resetTime right.resetTime
      | none => false

/-- `quota.normalizeString`: trimmed string or decimal rendering of a
number; other dynamic values give `""`. -/
def normalizeString (value : Option GoVal) : String :=
  match value with
  | some (.str s) => trimStr s
  | some (.num q) => gjsonString (.num q)
  | _ => ""

/-- The provider recorded in the `cliproxy_quota` snapshot of a metadata
map (`""` when no snapshot is stored). -/
def metadataExistingProvider (md : Metadata) : String :=
  match lookupField md "cliproxy_quota" with
  | some (.obj snapshot) => normalizeString (lookupField snapshot "provider")
  | _ => ""

/-- The models recorded in the `cliproxy_quota` snapshot of a metadata map. -/
def metadataExistingModels (md : Metadata) : QuotaMap :=
  match lookupField md "cliproxy_quota" with
  | some (.obj snapshot) => parseSnapshotModels (lookupField snapshot "models")
  | _ => []

/-- The provider name `UpdateMetadata` compares with: lowercased and
trimmed, falling back to the stored provider and then the raw argument when
empty. -/
def resolvedProvider (md : Metadata) (provider : String) : String :=
  let normalizedProvider := toLowerStr (trimStr provider)
  let normalizedProvider :=
    if normalizedProvider = "" then metadataExistingProvider md else normalizedProvider
  if normalizedProvider = "" then provider else normalizedProvider

/-- `quota.UpdateMetadata`: returns `(changed, new metadata)`.  The incoming
map is normalized; the result is compared against the stored snapshot with
`modelQuotaEqual` (percent epsilon `1e-4`, exact reset times) and a
case-insensitive provider comparison; on change the serialized snapshot
replaces `metadata["cliproxy_quota"]`. -/
def UpdateMetadata (metadata : Option Metadata) (provider : String)
    (models : QuotaMap) (updatedAt : GoTime) : Bool × Option Metadata :=
  match metadata with
  | none => (false, none)
  | some md =>
      let normalized := normalizeModelQuota models
      if normalized = [] then (false, some md)
      else
        if resolvedProvider md provider =
            toLowerStr (trimStr (metadataExistingProvider md)) ∧
            modelQuotaEqual (metadataExistingModels md) normalized then
          (false, some md)
        else
          let serialized : List (String × GoVal) :=
            normalized.map fun kv =>
              (kv.1, .obj (("percent", GoVal.num (clampPercent kv.2.percent)) ::
                (if kv.2.resetTime.isZero then []
                 else [("reset_time", GoVal.str (formatRFC3339 kv.2.resetTime))])))
          let snapshot : GoVal :=
            .obj ([("provider", GoVal.str (trimStr provider)),
                   ("models", GoVal.obj serialized)] ++
              (if updatedAt.isZero then []
               else [("updated_at", GoVal.str (formatRFC3339 updatedAt))]))
          (true, some (setField md "cliproxy_quota" snapshot))

/-- Go map read (generic association list). -/
def lookupAssoc {α : Type} (m : List (String × α)) (k : String) : Option α :=
  match m with
  | [] => none
  | (k', v) :: rest => if k' = k then some v else lookupAssoc rest k

/-- Go map assignment (generic association list; replace in place, else
append — list position models first-insertion order). -/
def setAssoc {α : Type} (m : List (String × α)) (k : String) (v : α) :
    List (String × α) :=
  match m with
  | [] => [(k, v)]
  | (k', v') :: rest =>
      if k' = k then (k', v) :: rest else (k', v') :: setAssoc rest k v

/-- `strings.HasPrefix` at the character-list level. -/
def startsWithList (l pre : List Char) : Bool :=
  l.take pre.length == pre

/-- `registry.antigravityQuotaGroups`: models sharing a quota pool, in
source order (the Go map iteration order is unspecified; no property proved
here depends on it). -/
def antigravityQuotaGroups : List (String × List String) :=
  [("claude-gpt",
      ["claude-sonnet-4-5-thinking", "claude-opus-4-5-thinking", "gpt-oss-120b-medium"]),
   ("gemini-3-pro", ["gemini-3-pro-high", "gemini-3-pro-low"]),
   ("gemini-2-5-flash", ["gemini-2.5-flash", "gemini-2.5-flash-thinking"]),
   ("gemini-2-5-flash-lite", ["gemini-2.5-flash-lite"]),
   ("gemini-2-5-cu", ["rev19-uic3-1p"]),
   ("gemini-3-flash", ["gemini-3-flash"]),
   ("gemini-image", ["gemini-3-pro-image"])]

/-- `registry.buildAntigravityModelToGroupMap`: model → group id. -/
def antigravityModelToGroup : List (String × String) :=
  antigravityQuotaGroups.foldl
    (fun m kv => kv.2.foldl (fun m model => setAssoc m model kv.1) m) []

/-- `registry.GetAntigravityQuotaGroupID`: direct model lookup, then prefix
match against each member with its `-thinking` suffix trimmed, else the
model itself. -/
def GetAntigravityQuotaGroupID (model : String) : String :=
  if model = "" then ""
  else
    match lookupAssoc antigravityModelToGroup model with
    | some group => group
    | none =>
        let found := antigravityQuotaGroups.findSome? fun kv =>
          if kv.2.any (fun baseModel =>
              startsWithList model.data (trimSuffixList baseModel.data thinkingSuffix)) then
            some kv.1
          else none
        match found with
        | some groupID => groupID
        | none => model

/-- `registry.GetAntigravityQuotaGroupModels`: all models sharing quota with
`model`; `[model]` when it maps to itself. -/
def GetAntigravityQuotaGroupModels (model : String) : List String :=
  if model = "" then []
  else
    let groupID := GetAntigravityQuotaGroupID model
    if groupID = model then [model]
    else (lookupAssoc antigravityQuotaGroups groupID).getD []

/-- `cliproxyauth.QuotaState`. -/
structure QuotaState where
  exceeded : Bool := false
  reason : String := ""
  nextRecoverAt : GoTime := goZeroTime
deriving Repr, DecidableEq

/-- `cliproxyauth.ModelState` (`Status` as its string form; the zero Auth
state is `active`). -/
structure ModelState where
  status : String := "active"
  unavailable : Bool := false
  nextRetryAfter : GoTime := goZeroTime
  quota : QuotaState := {}
  updatedAt : GoTime := goZeroTime
deriving Repr, DecidableEq

/-- `cliproxyauth.Auth`, restricted to the fields the quota core reads. -/
structure Auth where
  id : String := ""
  provider : String := ""
  attributes : List (String × String) := []
  metadata : Option Metadata := none
  modelStates : List (String × ModelState) := []

/-- `executor.quotaInfo`: parsed per-model quota data
(`remainingFraction` defaults to full quota). -/
structure QuotaInfo where
  remainingFraction : GoFloat := ⟨1, 0⟩
  resetTime : GoTime := goZeroTime
deriving Repr, DecidableEq

/-- `executor.parseAntigravityQuotaFromResponse`: walk `models.*`; an entry
must carry `quotaInfo`/`quota_info`; `remainingFraction` read from the first
of three field spellings, `resetTime` from the first nonempty of two.
A `none` body models empty or non-JSON bytes (on which every `gjson` lookup
fails). -/
def parseAntigravityQuotaFromResponse (body : Option GoVal) :
    List (String × QuotaInfo) :=
  match body with
  | none => []
  | some bodyVal =>
      match bodyVal.get "models" with
      | some (.obj modelsFields) =>
          modelsFields.foldl
            (fun quotas kv =>
              if kv.1 = "" then quotas
              else
                let quotaObj :=
                  match (kv.2).get "quotaInfo" with
                  | some v => some v
                  | none => (kv.2).get "quota_info"
                match quotaObj with
                | none => quotas
                | some qObj =>
                    let rf :=
                      match qObj.get "remainingFraction" with
                      | some v => gjsonFloat v
                      | none =>
                          match qObj.get "remaining_fraction" with
                          | some v => gjsonFloat v
                          | none =>
                              match qObj.get "remaining" with
                              | some v => gjsonFloat v
                              | none => ⟨1, 0⟩
                    let tryResetField (v? : Option GoVal) : Option GoTime :=
                      match v? with
                      | some v =>
                          if gjsonString v ≠ "" then
                            some ((parseRFC3339 (gjsonString v).data).getD goZeroTime)
                          else none
                      | none => none
                    let rt :=
                      match tryResetField (qObj.get "resetTime") with
                      | some t => t
                      | none =>
                          match tryResetField (qObj.get "reset_time") with
                          | some t => t
                          | none => goZeroTime
                    setAssoc quotas kv.1 ⟨rf, rt⟩)
            []
      | _ => []

/-- `1e-6`, the exhaustion threshold on `remainingFraction`. -/
def quotaExhaustedThreshold : GoFloat := ⟨1, 6⟩

/-- `executor.UpdateAntigravityQuotaState` as a pure state transform on the
auth (the recovery-timer scheduling side effect is outside the state model).
First pass: collect exhausted groups with the latest reset time (defaulting
to `now + 5` minutes when absent or past).  Second pass: mark the models of
each exhausted group unavailable (monotone in the reset time).  Third pass:
clear quota state of non-exhausted models whose group is not exhausted.
`body = none` models nil/empty body bytes. -/
def UpdateAntigravityQuotaState (auth : Auth) (body : Option GoVal) (now : GoTime) :
    Auth :=
  let quotas := parseAntigravityQuotaFromResponse body
  if quotas = [] then auth
  else
    let exhaustedGroups : List (String × GoTime) :=
      quotas.foldl
        (fun eg kv =>
          if kv.2.remainingFraction.ble quotaExhaustedThreshold then
            let groupID := GetAntigravityQuotaGroupID kv.1
            let resetTime :=
              if kv.2.resetTime.isZero || kv.2.resetTime < now then now + 5 * 60
              else kv.2.resetTime
            match lookupAssoc eg groupID with
            | some existing =>
                if existing < resetTime then setAssoc eg groupID resetTime else eg
            | none => setAssoc eg groupID resetTime
          else eg)
        []
    let marked := exhaustedGroups.foldl
      (fun ms kv =>
        let groupID := kv.1
        let resetTime := kv.2
        let modelsInGroup := GetAntigravityQuotaGroupModels groupID
        let modelsInGroup :=
          if modelsInGroup = [] ∨
              (modelsInGroup.length = 1 ∧ modelsInGroup.head? = some groupID) then
            [groupID]
          else modelsInGroup
        modelsInGroup.foldl
          (fun ms modelName =>
            let state := (lookupAssoc ms modelName).getD {}
            let exhaustedQuota : QuotaState :=
              { exceeded := true, reason := "quota_exhausted", nextRecoverAt := resetTime }
            let markedState : ModelState :=
              { state with
                unavailable := true
                nextRetryAfter := resetTime
                quota := exhaustedQuota
                updatedAt := now }
            if !state.unavailable || state.nextRetryAfter < resetTime then
              setAssoc ms modelName markedState
            else setAssoc ms modelName state)
          ms)
      auth.modelStates
    let cleared := quotas.foldl
      (fun ms kv =>
        if quotaExhaustedThreshold.blt kv.2.remainingFraction then
          let groupID := GetAntigravityQuotaGroupID kv.1
          match lookupAssoc exhaustedGroups groupID with
          | some _ => ms
          | none =>
              match lookupAssoc ms kv.1 with
              | some state =>
                  let clearedState : ModelState :=
                    { state with
                      unavailable := false
                      nextRetryAfter := goZeroTime
                      quota := {}
                      updatedAt := now }
                  if state.quota.exceeded then setAssoc ms kv.1 clearedState
                  else ms
              | none => ms
        else ms)
      marked
    { auth with modelStates := cleared }

/-- `Poller.persistQuota` reduced to its observable decision: whether a
manager `Update` call is issued for the auth (the poller and manager are
live; `auth = none` models a nil auth pointer).  `Update` is reached only
when `quota.UpdateMetadata` on the cloned metadata reports a change. -/
def persistQuotaIssuesUpdate (auth : Option Auth) (provider : String)
    (models : QuotaMap) (now : GoTime) : Bool :=
  match auth with
  | none => false
  | some a =>
      if models = [] then false
      else
        let md : Option Metadata :=
          match a.metadata with
          | none => some []
          | some m => some m
        (UpdateMetadata md provider models now).1

/-- `strings.Contains` at the character-list level. -/
def containsSubList (l sub : List Char) : Bool :=
  match l with
  | [] => sub == []
  | _ :: rest => startsWithList l sub || containsSubList rest sub

/-- Split on a separator character (`strings.Split`). -/
def splitOnChar (sep : Char) : List Char → List (List Char)
  | [] => [[]]
  | c :: rest =>
      match splitOnChar sep rest with
      | [] => [[c]]
      | h :: t => if c = sep then [] :: h :: t else (c :: h) :: t

/-- `strings.Join(parts, "-")`. -/
def joinWithDash : List (List Char) → List Char
  | [] => []
  | [p] => p
  | p :: rest => p ++ '-' :: joinWithDash rest

/-- `auth.isAllDigits`. -/
def isAllDigits (value : List Char) : Bool :=
  value.all (fun c => '0' ≤ c && c ≤ '9') && value ≠ []

/-- `auth.stripDateSuffix`: drop a trailing `-YYYYMMDD` style 8-digit part. -/
def stripDateSuffix (model : String) : String :=
  if model = "" then model
  else
    let parts := splitOnChar '-' model.data
    if parts.length < 2 then model
    else
      match parts.getLast? with
      | some last =>
          if last.length = 8 ∧ isAllDigits last then ⟨joinWithDash parts.dropLast⟩
          else model
      | none => model

/-- `auth.quotaResetTau = 48h` in seconds. -/
def quotaResetTau : ℝ := 172800

/-- `auth.quotaToWeight` (part_004): `round(percent³ · factor)` with
`factor = 1 + 0.25 · exp(-remaining/48h)` when the reset time is known
(`remaining` clamped at 0), over the reals standing in for `float64`. -/
noncomputable def quotaToWeight (entry : ModelQuota) (now : GoTime) : Int :=
  let percent := entry.percent.toReal
  if percent ≤ 0 then 0
  else
    let percent := if 100 < percent then (100 : ℝ) else percent
    let base := percent ^ 3
    if base ≤ 0 then 0
    else
      let factor : ℝ :=
        if entry.resetTime.isZero then 1
        else
          let remaining : ℝ := max ((entry.resetTime - now : ℤ) : ℝ) 0
          1 + 0.25 * Real.exp (-remaining / quotaResetTau)
      let weight := round (base * factor)
      if weight < 0 then 0 else weight

/-- `QuotaWeightedSelector.lookupModelQuota`: durable store first (when the
selector has one), then the metadata mirror. -/
def lookupModelQuota (store : Option Store) (auth : Auth) (model : String) :
    Option ModelQuota :=
  match store with
  | some st =>
      match st.getModelQuota auth.id model with
      | some entry => some entry
      | none => GetModelQuotaFromMetadata auth.metadata model
  | none => GetModelQuotaFromMetadata auth.metadata model

/-- `QuotaWeightedSelector.lookupGroupQuota`: minimum-percent entry over the
group members (ties prefer the earlier known reset), each member falling
back to its `-thinking`-stripped base. -/
def lookupGroupQuota (store : Option Store) (auth : Auth) (models : List String) :
    Option ModelQuota :=
  if models = [] then none
  else
    models.foldl
      (fun acc model =>
        if model = "" then acc
        else
          let entry? :=
            match lookupModelQuota store auth model with
            | some e => some e
            | none =>
                if endsWithList model.data thinkingSuffix then
                  let base := trimSuffixList model.data thinkingSuffix
                  if base ≠ [] then lookupModelQuota store auth ⟨base⟩ else none
                else none
          match entry?, acc with
          | none, _ => acc
          | some entry, none => some entry
          | some entry, some mn =>
              if entry.percent.blt mn.percent then some entry
              else if entry.percent.beq mn.percent && !entry.resetTime.isZero &&
                  (mn.resetTime.isZero || decide (entry.resetTime < mn.resetTime)) then
                some entry
              else acc)
      none

/-- `QuotaWeightedSelector.lookupQuota`: exact key; then the date-stripped
base and its `-thinking` variant; then (Antigravity only) the group minimum. -/
def lookupQuota (store : Option Store) (auth : Auth) (model : String) :
    Option ModelQuota :=
  match lookupModelQuota store auth model with
  | some e => some e
  | none =>
      let base := stripDateSuffix model
      let fromBase :=
        if base ≠ model then
          match lookupModelQuota store auth base with
          | some e => some e
          | none =>
              if !(containsSubList base.data "thinking".data) then
                lookupModelQuota store auth (base ++ "-thinking")
              else none
        else none
      match fromBase with
      | some e => some e
      | none =>
          if toLowerStr auth.provider = "antigravity" ∧ model ≠ "*" then
            lookupGroupQuota store auth (GetAntigravityQuotaGroupModels model)
          else none

/-- `QuotaWeightedSelector.weightFor` (part_004): `(weight, known)`;
unknown quota gets `quotaUnknownWeight = 0`. -/
noncomputable def weightFor (store : Option Store) (auth : Auth) (model : String)
    (now : GoTime) : Int × Bool :=
  let lookupModel := if trimStr model = "" then "*" else model
  match lookupQuota store auth lookupModel with
  | some entry => (quotaToWeight entry now, true)
  | none => (0, false)

/-- `strconv.Atoi` (sign and digits). -/
def parseAtoi (s : String) : Option Int :=
  let (sign, rest) : Int × List Char :=
    match s.data with
    | '+' :: r => (1, r)
    | '-' :: r => (-1, r)
    | r => (1, r)
  if rest ≠ [] ∧ rest.all Char.isDigit then some (sign * natOfDigits rest) else none

/-- Modelled from the spec: the priority tier of an auth —
`attributes["priority"]` parsed as an integer, default 0 (§3). -/
def authPriority (a : Auth) : Int :=
  match lookupAssoc a.attributes "priority" with
  | some s => (parseAtoi s).getD 0
  | none => 0

/-- Modelled from the spec: the single highest priority tier present (§4.6). -/
def topPriorityTier (auths : List Auth) : List Auth :=
  match auths with
  | [] => []
  | a0 :: _ =>
      let maxP := auths.foldl (fun acc a => max acc (authPriority a)) (authPriority a0)
      auths.filter fun a => authPriority a = maxP

/-- Insertion into a list sorted by auth id. -/
def insertByID (a : Auth) : List Auth → List Auth
  | [] => [a]
  | b :: rest => if a.id ≤ b.id then a :: b :: rest else b :: insertByID a rest

/-- Sort auths by ascending id. -/
def sortByID (auths : List Auth) : List Auth :=
  auths.foldr insertByID []

/-- Modelled from the spec: `RoundRobinSelector.Pick`, whose definition is
not among the source files (§4.6): within the highest priority tier, sorted
by id, return the element at `cursor % len` and advance the cursor;
no candidate yields the auth-not-found error (modelled as `none`). -/
def roundRobinPick (cursor : Nat) (auths : List Auth) : Option Auth × Nat :=
  let tier := sortByID (topPriorityTier auths)
  match tier with
  | [] => (none, cursor)
  | _ => (tier.get? (cursor % tier.length), cursor + 1)

/-- Outcome of a selector `Pick`. -/
inductive PickResult where
  | ok (a : Auth)
  | authNotFound

/-- Per-key smooth-WRR cursor state: auth id → `current`. -/
abbrev CursorMap := List (String × Int)

/-- The candidate/weight accumulation loop of `QuotaWeightedSelector.Pick`
(part_004 lines 359–374): drop candidates with known non-positive weight,
count unknowns, and sum weights. -/
noncomputable def pickCandidates (store : Option Store) (model : String) (now : GoTime)
    (available : List Auth) : List (Auth × Int) × Nat :=
  available.foldl
    (fun acc candidate =>
      let wk := weightFor store candidate model now
      if wk.2 && decide (wk.1 ≤ 0) then acc
      else ((acc.1 ++ [(candidate, wk.1)]), if !wk.2 then acc.2 + 1 else acc.2))
    ([], 0)

/-- Structural-recursion form of `pickCandidates` (same per-candidate step,
written as a right fold for reasoning). -/
noncomputable def pickCandidatesR (store : Option Store) (model : String) (now : GoTime) :
    List Auth → List (Auth × Int) × Nat
  | [] => ([], 0)
  | a :: rest =>
      let wk := weightFor store a model now
      let r := pickCandidatesR store model now rest
      if wk.2 && decide (wk.1 ≤ 0) then r
      else ((a, wk.1) :: r.1, if !wk.2 then r.2 + 1 else r.2)

/-- The cursor-update loop of `QuotaWeightedSelector.Pick` (part_004 lines
398–410): add each weight to its cursor and track the first strict maximum. -/
def wrrLoop (state : CursorMap) (cands : List (Auth × Int)) (i bestIdx : Nat)
    (bestScore : Int) (bestSet : Bool) : CursorMap × Nat :=
  match cands with
  | [] => (state, bestIdx)
  | (cand, w) :: rest =>
      let current := ((lookupAssoc state cand.id).getD 0) + w
      let state := setAssoc state cand.id current
      if !bestSet || decide (bestScore < current) then
        wrrLoop state rest (i + 1) i current true
      else wrrLoop state rest (i + 1) bestIdx bestScore bestSet

/-- The smooth-WRR selection step of `QuotaWeightedSelector.Pick` (part_004
lines 395–422): run the cursor loop, subtract `totalWeight` from the winner,
and garbage-collect cursors whose id is no longer a candidate. -/
def smoothWrrSelect (state : CursorMap) (cands : List (Auth × Int))
    (totalWeight : Int) : CursorMap × Nat :=
  let (st, bestIdx) := wrrLoop state cands 0 0 0 false
  let st :=
    match cands.get? bestIdx with
    | some cw => setAssoc st cw.1.id (((lookupAssoc st cw.1.id).getD 0) - totalWeight)
    | none => st
  let st :=
    if cands.length < st.length then
      st.filter fun kv => cands.any fun cw => cw.1.id = kv.1
    else st
  (st, bestIdx)

/-- Concrete candidate pair used in witnesses. -/
def c10Cands : List (Auth × Int) := [({ id := "a" }, 0), ({ id := "b" }, 5)]

/-- Per-candidate-key cursor sum of a WRR state. -/
def cursorSum (st : CursorMap) (cands : List (Auth × Int)) : Int :=
  (cands.map fun cw => ((lookupAssoc st cw.1.id).getD 0)).sum

/-- The sequence of `cursor.current` values computed by the WRR loop. -/
def currents (st : CursorMap) : List (Auth × Int) → List Int
  | [] => []
  | (c, w) :: rest =>
      let cur := ((lookupAssoc st c.id).getD 0) + w
      cur :: currents (setAssoc st c.id cur) rest

/-- The WRR loop's final state (both branches update state identically). -/
def stAfter (st : CursorMap) : List (Auth × Int) → CursorMap
  | [] => st
  | (c, w) :: rest =>
      stAfter (setAssoc st c.id (((lookupAssoc st c.id).getD 0) + w)) rest


/-- `QuotaWeightedSelector.Pick` (part_004), from the availability-filtered
candidate list on: the source first filters `auths` through
`getAvailableAuths` (not among the source files); `available` here is that
candidate set.  Returns the pick result, the updated per-key WRR cursor
state, and the updated fallback round-robin cursor. -/
noncomputable def quotaWeightedPick (store : Option Store)
    (cursors : List (String × CursorMap)) (rrCursor : Nat)
    (provider model : String) (now : GoTime) (available : List Auth) :
    PickResult × List (String × CursorMap) × Nat :=
  if available.isEmpty then (.authNotFound, cursors, rrCursor)
  else
    let cu := pickCandidates store model now available
    let candidates := cu.1
    let unknownCount := cu.2
    let totalWeight := (candidates.map fun cw => cw.2).sum
    if candidates.isEmpty then (.authNotFound, cursors, rrCursor)
    else if totalWeight ≤ 0 then
      if 0 < unknownCount then
        let rr := roundRobinPick rrCursor (candidates.map fun cw => cw.1)
        match rr.1 with
        | some a => (.ok a, cursors, rr.2)
        | none => (.authNotFound, cursors, rr.2)
      else (.authNotFound, cursors, rrCursor)
    else
      let key := provider ++ ":" ++ NormalizeModelKey model
      let state := (lookupAssoc cursors key).getD []
      let sel := smoothWrrSelect state candidates totalWeight
      match candidates.get? sel.2 with
      | some cw => (.ok cw.1, setAssoc cursors key sel.1, rrCursor)
      | none => (.authNotFound, setAssoc cursors key sel.1, rrCursor)

/-- Concrete auth with a stored 100-percent quota (used in witnesses). -/
def c2wAuth : Auth := { id := "w1" }

/-- Store giving `c2wAuth` a 100-percent quota for model `"m"`. -/
def c2wStore : Store :=
  { authQuotas := [("w1",
      { provider := "p"
        updatedAt := 0
        models := [("m", { percent := ⟨100, 0⟩ })] })]
    dirty := false }

/-- Concrete auth with a stored zero-percent quota. -/
def c2zAuth : Auth := { id := "z1" }

/-- Store giving `c2zAuth` a zero-percent quota for model `"m"`. -/
def c2zStore : Store :=
  { authQuotas := [("z1",
      { provider := "p"
        updatedAt := 0
        models := [("m", { percent := ⟨0, 0⟩ })] })]
    dirty := false }

/-- Concrete auth with a stored 0.5-percent quota (weight rounds to 0). -/
def c2xAuthA : Auth := { id := "x1" }

/-- Concrete auth with no stored quota (unknown weight). -/
def c2xAuthB : Auth := { id := "x2" }

/-- Store giving `c2xAuthA` a 0.5-percent quota for model `"m"` and nothing
for `c2xAuthB`. -/
def c2xStore : Store :=
  { authQuotas := [("x1",
      { provider := "p"
        updatedAt := 0
        models := [("m", { percent := ⟨5, 1⟩ })] })]
    dirty := false }

/-- One upstream exchange as the retry loop classifies it: a transport
error (possibly a context cancel/deadline) or an HTTP status with body. -/
inductive UpResp where
  | transport (canceled : Bool)
  | http (status : Int) (body : String)

/-- Terminal outcome of `AntigravityExecutor.Execute`. -/
inductive ExecOutcome where
  | success (payload : String)
  | httpError (status : Int) (body : String)
  | transportError
  | canceled
  | fellThrough
deriving Repr, DecidableEq

/-- Observable step of the retry loop: an upstream send for
`(attempt, url index)`, or a backoff sleep in milliseconds. -/
inductive ExecAction where
  | send (attempt urlIdx : Nat)
  | sleepMs (ms : Int)
deriving Repr, DecidableEq

/-- `executor.antigravityShouldRetryNoCapacity`: 503 with a nonempty body
whose lowercase form contains `"no capacity available"`. -/
def antigravityShouldRetryNoCapacity (status : Int) (body : String) : Bool :=
  if status ≠ 503 then false
  else if body.data = [] then false
  else containsSubList (toLowerList body.data) "no capacity available".data

/-- `executor.antigravityNoCapacityRetryDelay` in milliseconds:
`min(2s, (attempt+1)·250ms)` with negative attempts clamped. -/
def antigravityNoCapacityRetryDelay (attempt : Int) : Int :=
  let attempt := if attempt < 0 then 0 else attempt
  let delay := (attempt + 1) * 250
  if 2000 < delay then 2000 else delay

/-- Result of one walk over the base URLs within an attempt. -/
inductive InnerRes where
  | finish (o : ExecOutcome)
  | retryNext (delayMs : Int)
  | noUrl
deriving Repr, DecidableEq

/-- The inner URL loop of `AntigravityExecutor.Execute` (part_000 lines
164–239), with `remaining` URLs left to try out of `totalUrls` and the
upstream behaviour given by the oracle `resp attempt urlIdx`. -/
def runUrls (resp : Nat → Nat → UpResp) (attempt attempts totalUrls : Nat) :
    Nat → List ExecAction × InnerRes
  | 0 => ([], .noUrl)
  | r + 1 =>
      let idx := totalUrls - (r + 1)
      let hasNext := decide (0 < r)
      let act := ExecAction.send attempt idx
      let recurse := fun (_ : Unit) =>
        let next := runUrls resp attempt attempts totalUrls r
        (act :: next.1, next.2)
      match resp attempt idx with
      | .transport true => ([act], .finish .canceled)
      | .transport false =>
          if hasNext then recurse () else ([act], .finish .transportError)
      | .http s b =>
          if 200 ≤ s ∧ s < 300 then ([act], .finish (.success b))
          else if s = 429 ∧ hasNext = true then recurse ()
          else if antigravityShouldRetryNoCapacity s b then
            if hasNext then recurse ()
            else if attempt + 1 < attempts then
              ([act], .retryNext (antigravityNoCapacityRetryDelay attempt))
            else ([act], .finish (.httpError s b))
          else ([act], .finish (.httpError s b))

/-- The attempt loop of `AntigravityExecutor.Execute` (part_000 lines
158–258): run the URL walk; on a no-capacity retry, sleep and restart with
the next attempt.  `.noUrl` (an empty URL list) surfaces the 503
`no base url available` error from the post-loop switch. -/
def runAttempts (resp : Nat → Nat → UpResp) (attempts totalUrls : Nat) :
    Nat → List ExecAction × ExecOutcome
  | 0 => ([], .fellThrough)
  | n + 1 =>
      let attempt := attempts - (n + 1)
      let inner := runUrls resp attempt attempts totalUrls totalUrls
      match inner.2 with
      | .finish o => (inner.1, o)
      | .retryNext d =>
          let next := runAttempts resp attempts totalUrls n
          (inner.1 ++ ExecAction.sleepMs d :: next.1, next.2)
      | .noUrl => (inner.1, .httpError 503 "antigravity executor: no base url available")

/-- `AntigravityExecutor.Execute`'s retry structure: `attempts` attempts
over `totalUrls` base URLs. -/
def antigravityExecuteLoop (resp : Nat → Nat → UpResp) (attempts totalUrls : Nat) :
    List ExecAction × ExecOutcome :=
  runAttempts resp attempts totalUrls attempts

/-- A Claude content block, restricted to the fields the recovery transform
reads and writes; `rest` carries all other fields unchanged. -/
structure ClaudeBlock where
  btype : String := ""
  thinking : Option String := none
  signature : Option String := none
  text : Option String := none
  rest : List (String × GoVal) := []

/-- A Claude message; `content = none` models a non-array `content`,
which the transform skips. -/
structure ClaudeMessage where
  role : String := ""
  content : Option (List ClaudeBlock) := none

/-- A Claude request payload; `messages = none` models invalid JSON or a
missing/non-array `messages`, which the transform leaves unchanged. -/
structure ClaudePayload where
  messages : Option (List ClaudeMessage) := none

/-- Index of the last message with role `assistant` (part_000-style
backwards scan in `ConvertThinkingToTextForRecoveryFix`). -/
def lastAssistantIdx (msgs : List ClaudeMessage) : Option Nat :=
  (msgs.foldl
    (fun (acc : Option Nat × Nat) m =>
      (if m.role = "assistant" then some acc.2 else acc.1, acc.2 + 1))
    (none, 0)).1

/-- The converted form of a thinking block: type `text`, text carrying the
thinking content, `thinking` and `signature` removed, other fields kept. -/
def thinkingToTextBlock (b : ClaudeBlock) : ClaudeBlock :=
  { btype := "text", thinking := none, signature := none,
    text := some (b.thinking.getD ""), rest := b.rest }

/-- Index-passing map (explicit recursion so that its `get?` behaviour has a
direct proof). -/
def mapIdxFrom {α β : Type} (f : Nat → α → β) (n : Nat) : List α → List β
  | [] => []
  | a :: rest => f n a :: mapIdxFrom f (n + 1) rest

/-- The per-block recovery rewrite at message index `i`, block index `j`,
given the index of the final assistant message. -/
def recoveryBlockRewrite (lastIdx : Option Nat) (i j : Nat) (b : ClaudeBlock) :
    ClaudeBlock :=
  if b.btype = "thinking" then
    if some i = lastIdx ∧ j = 0 then { b with signature := none }
    else thinkingToTextBlock b
  else b

/-- `executor.ConvertThinkingToTextForRecoveryFix`: every `thinking` block
becomes a `text` block, except the block at content index 0 of the final
assistant message, which keeps its type and only loses `signature`. -/
def ConvertThinkingToTextForRecoveryFix (p : ClaudePayload) : ClaudePayload :=
  match p.messages with
  | none => p
  | some msgs =>
      let lastIdx := lastAssistantIdx msgs
      let converted := mapIdxFrom
        (fun i msg =>
          match msg.content with
          | none => msg
          | some blocks =>
              { msg with
                content := some (mapIdxFrom (recoveryBlockRewrite lastIdx i) 0 blocks) })
        0 msgs
      { messages := some converted }

/-- Concrete store contents for exercising `Store.set`. -/
def c5Stored : QuotaMap := [("claude-sonnet-4-5", { percent := ⟨755, 1⟩ })]

/-- A store holding `c5Stored` for auth `a1`, not dirty. -/
def c5Store : Store :=
  { authQuotas := [("a1", ⟨"antigravity", 0, c5Stored⟩)], dirty := false }

/-- An incoming map that normalizes to exactly `c5Stored` (path prefix and
thinking suffix stripped, key lowercased, out-of-range duplicate clamped to
0 and losing the dedup to the higher percent). -/
def c5Same : QuotaMap :=
  [("ns/Claude-Sonnet-4-5-thinking", { percent := ⟨755, 1⟩ }),
   ("claude-sonnet-4-5", { percent := ⟨-3, 0⟩ })]

/-- An incoming map with a genuinely different percent. -/
def c5Different : QuotaMap := [("claude-sonnet-4-5", { percent := ⟨60, 0⟩ })]

/-- Concrete metadata carrying a `cliproxy_quota` snapshot:
provider `antigravity`, `claude-sonnet-4-5 ↦ 5` with no reset time. -/
def c6Metadata : Metadata :=
  [("cliproxy_quota", .obj
      [("provider", .str "antigravity"),
       ("models", .obj [("claude-sonnet-4-5", .obj [("percent", .num ⟨5, 0⟩)])])])]

/-- Concrete message list exercising the recovery transform: a user message
with one thinking block and a final assistant message with two. -/
def c8WitnessMsgs : List ClaudeMessage :=
  [{ role := "user",
     content := some [{ btype := "thinking", thinking := some "t0",
                        signature := some "s0" }] },
   { role := "assistant",
     content := some [
       { btype := "thinking", thinking := some "t1", signature := some "bad1" },
       { btype := "thinking", thinking := some "t2", signature := some "bad2" }] }]

/-- The payload wrapping `c8WitnessMsgs`. -/
def c8WitnessPayload : ClaudePayload := { messages := some c8WitnessMsgs }

/-- Content block at message index `i`, block index `j` of a payload. -/
def blockAt (p : ClaudePayload) (i j : Nat) : Option ClaudeBlock :=
  match p.messages with
  | none => none
  | some msgs =>
      match msgs.get? i with
      | none => none
      | some m =>
          match m.content with
          | none => none
          | some bs => bs.get? j

/-- An upstream error body as the recovery check reads it: its raw text and
its parsed JSON view (`none` when not valid JSON). -/
structure GoBody where
  text : String := ""
  json : Option GoVal := none

/-- `gjson` two-segment path read rendered as a string (missing → `""`). -/
def getPath2String (j : GoVal) (a b : String) : String :=
  match j.get a with
  | some v =>
      match v.get b with
      | some w => gjsonString w
      | none => ""
  | none => ""

/-- The known signature-validation error pattern. -/
def signatureErrorPattern : String := "invalid `signature` in `thinking` block"

/-- `executor.IsSignatureValidationErrorFix`: 4xx whose body (raw, or the
`error.message`/`error.code`/`message` fields of its JSON form) contains
the known pattern, case-insensitively. -/
def IsSignatureValidationErrorFix (statusCode : Int) (body : GoBody) : Bool :=
  if statusCode < 400 ∨ 500 ≤ statusCode then false
  else if containsSubList (toLowerList body.text.data) signatureErrorPattern.data then true
  else
    match body.json with
    | some j =>
        let combined :=
          getPath2String j "error" "message" ++ getPath2String j "error" "code" ++
            (match j.get "message" with
             | some w => gjsonString w
             | none => "")
        containsSubList (toLowerList combined.data) signatureErrorPattern.data
    | none => false

/-- `executor.ShouldRetryWithRecoveryFix`: never on a marked recovery
attempt; Claude-family models only; otherwise the signature check. -/
def ShouldRetryWithRecoveryFix (statusCode : Int) (body : GoBody) (model : String)
    (alreadyRetried : Bool) : Bool :=
  if alreadyRetried then false
  else if !(containsSubList (toLowerList model.data) "claude".data) then false
  else IsSignatureValidationErrorFix statusCode body

/-! ## Claim theorems -/

theorem GoFloat.toRat_pow_pos (e : Nat) : (0 : ℚ) < (10 : ℚ) ^ e :=
  pow_pos (by norm_num) e

theorem GoFloat.ble_iff (a b : GoFloat) : a.ble b = true ↔ a.toRat ≤ b.toRat := by
  have ha := GoFloat.toRat_pow_pos a.exp
  have hb := GoFloat.toRat_pow_pos b.exp
  simp only [GoFloat.ble, GoFloat.toRat, decide_eq_true_eq,
    div_le_div_iff₀ ha hb]
  constructor
  · intro h
    exact_mod_cast h
  · intro h
    exact_mod_cast h

theorem GoFloat.blt_iff (a b : GoFloat) : a.blt b = true ↔ a.toRat < b.toRat := by
  have ha := GoFloat.toRat_pow_pos a.exp
  have hb := GoFloat.toRat_pow_pos b.exp
  simp only [GoFloat.blt, GoFloat.toRat, decide_eq_true_eq,
    div_lt_div_iff₀ ha hb]
  constructor
  · intro h
    exact_mod_cast h
  · intro h
    exact_mod_cast h

theorem GoFloat.beq_iff (a b : GoFloat) : a.beq b = true ↔ a.toRat = b.toRat := by
  have ha := GoFloat.toRat_pow_pos a.exp
  have hb := GoFloat.toRat_pow_pos b.exp
  simp only [GoFloat.beq, GoFloat.toRat, beq_iff_eq,
    div_eq_div_iff (ne_of_gt ha) (ne_of_gt hb)]
  constructor
  · intro h
    exact_mod_cast h
  · intro h
    exact_mod_cast h

/-- C9: for every auth and every response body from which no per-model quota
entry can be parsed — nil/empty body (`body = none`), a missing or
non-object `models` field, or no model entry carrying
`quotaInfo`/`quota_info`, all of which make the parser return the empty
map — `UpdateAntigravityQuotaState` returns without modifying
`auth.ModelStates`: the auth is exactly as before the call. -/
theorem updateAntigravityQuotaState_frame (auth : Auth) (body : Option GoVal)
    (now : GoTime) (h : parseAntigravityQuotaFromResponse body = []) :
    UpdateAntigravityQuotaState auth body now = auth := by
  unfold UpdateAntigravityQuotaState
  simp [h]

/-- Witness for C9 at concrete inputs: a nil body, a body whose `models`
field is a number, and a body whose single model entry lacks `quotaInfo`
all parse to the empty map, and the tracker leaves a nonempty state map
untouched on the last of them. -/
theorem updateAntigravityQuotaState_frame_witness :
    parseAntigravityQuotaFromResponse none = [] ∧
    parseAntigravityQuotaFromResponse
      (some (.obj [("models", .num ⟨3, 0⟩)])) = [] ∧
    parseAntigravityQuotaFromResponse
      (some (.obj [("models", .obj [("gemini-3-pro-high", .obj [("name", .str "x")])])])) = [] ∧
    UpdateAntigravityQuotaState
      { id := "auth-1", modelStates := [("m", { unavailable := true })] }
      (some (.obj [("models", .obj [("gemini-3-pro-high", .obj [("name", .str "x")])])]))
      1700000000 =
      { id := "auth-1", modelStates := [("m", { unavailable := true })] } :=
  ⟨by decide, by decide, by decide,
    updateAntigravityQuotaState_frame _ _ _ (by decide)⟩

/-- C1 (failing input): a models-list body reporting
`claude-sonnet-4-5-thinking` exhausted (`remainingFraction = 0`, group
`claude-gpt`).  The claim requires every member of the group —
`claude-sonnet-4-5-thinking`, `claude-opus-4-5-thinking`,
`gpt-oss-120b-medium` — to be marked unavailable with `quota.exceeded`.
The code instead marks only the pseudo-key `"claude-gpt"` (the group id):
`GetAntigravityQuotaGroupModels` is called with the group id, for which it
returns `[groupID]`, so no member model receives a state — contradicting
the function's own doc comment ("all models in that group are marked
unavailable") and the registry's ("all models in the group are considered
unavailable"). -/
theorem updateAntigravityQuotaState_group_bug :
    (let body : GoVal :=
      .obj [("models", .obj [("claude-sonnet-4-5-thinking",
        .obj [("quotaInfo", .obj [("remainingFraction", .num ⟨0, 0⟩)])])])]
    let out := UpdateAntigravityQuotaState { id := "auth-1" } (some body) 1700000000
    lookupAssoc out.modelStates "claude-opus-4-5-thinking" = none ∧
    lookupAssoc out.modelStates "gpt-oss-120b-medium" = none ∧
    lookupAssoc out.modelStates "claude-sonnet-4-5-thinking" = none ∧
    (lookupAssoc out.modelStates "claude-gpt").map
      (fun s => (s.unavailable, s.quota.exceeded, s.nextRetryAfter)) =
      some (true, true, 1700000300)) := by
  decide

theorem shouldRetryNoCapacity_iff (s : Int) (b : String) :
    antigravityShouldRetryNoCapacity s b = true ↔
      s = 503 ∧ containsSubList (toLowerList b.data) "no capacity available".data = true := by
  unfold antigravityShouldRetryNoCapacity
  split_ifs with h1 h2
  · simp [h1]
  · simp [not_not.mp h1, h2, toLowerList, containsSubList]
  · simp [not_not.mp h1]

theorem noCapacityRetryDelay_eq (a : Nat) :
    antigravityNoCapacityRetryDelay a = min 2000 ((a + 1) * 250) := by
  simp only [antigravityNoCapacityRetryDelay, min_def]
  split_ifs <;> omega

theorem runUrls_noCapacity_nextUrl (resp : Nat → Nat → UpResp)
    (attempt attempts totalUrls r : Nat) (s : Int) (b : String) (hr : 0 < r)
    (hresp : resp attempt (totalUrls - (r + 1)) = .http s b)
    (hnc : antigravityShouldRetryNoCapacity s b = true) :
    runUrls resp attempt attempts totalUrls (r + 1) =
      (ExecAction.send attempt (totalUrls - (r + 1)) ::
          (runUrls resp attempt attempts totalUrls r).1,
       (runUrls resp attempt attempts totalUrls r).2) := by
  have hs : s = 503 := ((shouldRetryNoCapacity_iff s b).mp hnc).1
  subst hs
  rw [runUrls, hresp]
  have h2xx : ¬(200 ≤ (503 : Int) ∧ (503 : Int) < 300) := by norm_num
  have h429 : ¬((503 : Int) = 429 ∧ decide (0 < r) = true) := by norm_num
  simp [h2xx, h429, hnc, hr]

theorem runUrls_noCapacity_lastUrl (resp : Nat → Nat → UpResp)
    (attempt attempts totalUrls : Nat) (s : Int) (b : String)
    (hresp : resp attempt (totalUrls - 1) = .http s b)
    (hnc : antigravityShouldRetryNoCapacity s b = true)
    (hatt : attempt + 1 < attempts) :
    runUrls resp attempt attempts totalUrls 1 =
      ([ExecAction.send attempt (totalUrls - 1)],
       .retryNext (min 2000 ((attempt + 1) * 250))) := by
  have hs : s = 503 := ((shouldRetryNoCapacity_iff s b).mp hnc).1
  subst hs
  rw [runUrls, hresp]
  have h2xx : ¬(200 ≤ (503 : Int) ∧ (503 : Int) < 300) := by norm_num
  have h429 : ¬((503 : Int) = 429 ∧ decide (0 < 0) = true) := by norm_num
  simp [h2xx, h429, hnc, hatt, noCapacityRetryDelay_eq]

theorem runAttempts_retryNext_step (resp : Nat → Nat → UpResp)
    (attempts totalUrls n : Nat) (d : Int)
    (h : (runUrls resp (attempts - (n + 1)) attempts totalUrls totalUrls).2 =
      .retryNext d) :
    runAttempts resp attempts totalUrls (n + 1) =
      ((runUrls resp (attempts - (n + 1)) attempts totalUrls totalUrls).1 ++
        ExecAction.sleepMs d :: (runAttempts resp attempts totalUrls n).1,
       (runAttempts resp attempts totalUrls n).2) := by
  rw [runAttempts]
  simp [h]

theorem runUrls_allNoCapacity (resp : Nat → Nat → UpResp) (bodies : Nat → Nat → String)
    (attempt attempts totalUrls : Nat)
    (hresp : ∀ a i, resp a i = .http 503 (bodies a i))
    (hnc : ∀ a i, antigravityShouldRetryNoCapacity 503 (bodies a i) = true) :
    ∀ r, 1 ≤ r → r ≤ totalUrls →
      (runUrls resp attempt attempts totalUrls r).2 =
        if attempt + 1 < attempts then
          InnerRes.retryNext (antigravityNoCapacityRetryDelay attempt)
        else .finish (.httpError 503 (bodies attempt (totalUrls - 1))) := by
  intro r
  induction r with
  | zero => omega
  | succ r ih =>
      intro _ hle
      rcases Nat.eq_zero_or_pos r with hr0 | hrpos
      · subst hr0
        rw [runUrls, hresp attempt (totalUrls - 1)]
        have h2xx : ¬(200 ≤ (503 : Int) ∧ (503 : Int) < 300) := by norm_num
        have h429 : ¬((503 : Int) = 429 ∧ decide (0 < 0) = true) := by norm_num
        by_cases hatt : attempt + 1 < attempts
        · simp [h2xx, h429, hnc attempt (totalUrls - 1), hatt]
        · simp [h2xx, h429, hnc attempt (totalUrls - 1), hatt]
      · rw [runUrls_noCapacity_nextUrl resp attempt attempts totalUrls r 503
          (bodies attempt (totalUrls - (r + 1))) hrpos
          (hresp attempt (totalUrls - (r + 1))) (hnc attempt (totalUrls - (r + 1)))]
        exact ih hrpos (by omega)

theorem runAttempts_allNoCapacity (resp : Nat → Nat → UpResp)
    (bodies : Nat → Nat → String) (attempts totalUrls : Nat)
    (hurls : 1 ≤ totalUrls)
    (hresp : ∀ a i, resp a i = .http 503 (bodies a i))
    (hnc : ∀ a i, antigravityShouldRetryNoCapacity 503 (bodies a i) = true) :
    ∀ n, 1 ≤ n → n ≤ attempts →
      (runAttempts resp attempts totalUrls n).2 =
        .httpError 503 (bodies (attempts - 1) (totalUrls - 1)) := by
  intro n
  induction n with
  | zero => omega
  | succ n ih =>
      intro _ hle
      have hinner := runUrls_allNoCapacity resp bodies (attempts - (n + 1)) attempts
        totalUrls hresp hnc totalUrls hurls le_rfl
      rcases Nat.eq_zero_or_pos n with hn0 | hnpos
      · subst hn0
        rw [if_neg (by omega : ¬(attempts - (0 + 1) + 1 < attempts))] at hinner
        rw [runAttempts]
        simp only [hinner]
      · have hatt : attempts - (n + 1) + 1 < attempts := by omega
        rw [if_pos hatt] at hinner
        rw [runAttempts_retryNext_step resp attempts totalUrls n _ hinner]
        exact ih hnpos (by omega)

/-- C7: the Antigravity retry loop's no-capacity policy.
(1) A response is classified retriable-no-capacity exactly when its status
is 503 and its body contains `"no capacity available"` case-insensitively.
(2) On such a response with a next base URL remaining, the next URL is tried
within the same attempt.
(3) With no next URL but another attempt remaining, the walk ends in a
retry whose backoff is exactly `min(2s, (attempt+1)·250ms)`, and the attempt
loop sleeps exactly that long before restarting.
(4) When every send returns no-capacity and all attempts are exhausted, the
last upstream status and body are surfaced as the error. -/
theorem antigravityNoCapacityRetryPolicy :
    (∀ (s : Int) (b : String),
      antigravityShouldRetryNoCapacity s b = true ↔
        s = 503 ∧
          containsSubList (toLowerList b.data) "no capacity available".data = true) ∧
    (∀ (resp : Nat → Nat → UpResp) (attempt attempts totalUrls r : Nat)
        (s : Int) (b : String), 0 < r →
      resp attempt (totalUrls - (r + 1)) = .http s b →
      antigravityShouldRetryNoCapacity s b = true →
      runUrls resp attempt attempts totalUrls (r + 1) =
        (ExecAction.send attempt (totalUrls - (r + 1)) ::
            (runUrls resp attempt attempts totalUrls r).1,
         (runUrls resp attempt attempts totalUrls r).2)) ∧
    (∀ (resp : Nat → Nat → UpResp) (attempt attempts totalUrls : Nat)
        (s : Int) (b : String),
      resp attempt (totalUrls - 1) = .http s b →
      antigravityShouldRetryNoCapacity s b = true →
      attempt + 1 < attempts →
      runUrls resp attempt attempts totalUrls 1 =
        ([ExecAction.send attempt (totalUrls - 1)],
         .retryNext (min 2000 ((attempt + 1) * 250)))) ∧
    (∀ (resp : Nat → Nat → UpResp) (attempts totalUrls n : Nat) (d : Int),
      (runUrls resp (attempts - (n + 1)) attempts totalUrls totalUrls).2 =
        .retryNext d →
      runAttempts resp attempts totalUrls (n + 1) =
        ((runUrls resp (attempts - (n + 1)) attempts totalUrls totalUrls).1 ++
          ExecAction.sleepMs d :: (runAttempts resp attempts totalUrls n).1,
         (runAttempts resp attempts totalUrls n).2)) ∧
    (∀ (resp : Nat → Nat → UpResp) (bodies : Nat → Nat → String)
        (attempts totalUrls : Nat), 1 ≤ attempts → 1 ≤ totalUrls →
      (∀ a i, resp a i = .http 503 (bodies a i)) →
      (∀ a i, antigravityShouldRetryNoCapacity 503 (bodies a i) = true) →
      (antigravityExecuteLoop resp attempts totalUrls).2 =
        .httpError 503 (bodies (attempts - 1) (totalUrls - 1))) :=
  ⟨shouldRetryNoCapacity_iff,
   fun resp attempt attempts totalUrls r s b hr hresp hnc =>
     runUrls_noCapacity_nextUrl resp attempt attempts totalUrls r s b hr hresp hnc,
   fun resp attempt attempts totalUrls s b hresp hnc hatt =>
     runUrls_noCapacity_lastUrl resp attempt attempts totalUrls s b hresp hnc hatt,
   runAttempts_retryNext_step,
   fun resp bodies attempts totalUrls hatt hurls hresp hnc =>
     runAttempts_allNoCapacity resp bodies attempts totalUrls hurls hresp hnc
       attempts hatt le_rfl⟩

/-- Witness for C7 at concrete inputs: two attempts over the two fallback
hosts, every send answering 503 `no capacity available`; the classifier
accepts a mixed-case body, and the loop surfaces the last upstream status
and body. -/
theorem antigravityNoCapacityRetryPolicy_witness :
    antigravityShouldRetryNoCapacity 503 "No Capacity Available for model" = true ∧
    (antigravityExecuteLoop (fun _ _ => .http 503 "no capacity available") 2 2).2 =
      .httpError 503 "no capacity available" :=
  ⟨(antigravityNoCapacityRetryPolicy.1 503 "No Capacity Available for model").mpr
      ⟨rfl, by decide⟩,
   antigravityNoCapacityRetryPolicy.2.2.2.2 (fun _ _ => .http 503 "no capacity available")
     (fun _ _ => "no capacity available") 2 2 (by decide) (by decide)
     (fun _ _ => rfl)
     (fun _ _ =>
       (by decide : antigravityShouldRetryNoCapacity 503 "no capacity available" = true))⟩

theorem mapIdxFrom_get? {α β : Type} (f : Nat → α → β) :
    ∀ (l : List α) (n i : Nat), (mapIdxFrom f n l).get? i = (l.get? i).map (f (n + i))
  | [], _, _ => by simp [mapIdxFrom]
  | a :: rest, n, 0 => by simp [mapIdxFrom]
  | a :: rest, n, i + 1 => by
      simp only [mapIdxFrom, List.get?]
      rw [mapIdxFrom_get? f rest (n + 1) i]
      have h : n + 1 + i = n + (i + 1) := by omega
      rw [h]

theorem recoveryTransform_blockAt (p : ClaudePayload) (msgs : List ClaudeMessage)
    (i j : Nat) (msg : ClaudeMessage) (blocks : List ClaudeBlock) (b : ClaudeBlock)
    (hp : p.messages = some msgs) (hi : msgs.get? i = some msg)
    (hc : msg.content = some blocks) (hj : blocks.get? j = some b)
    (hb : b.btype = "thinking") :
    blockAt (ConvertThinkingToTextForRecoveryFix p) i j =
      some (if some i = lastAssistantIdx msgs ∧ j = 0 then { b with signature := none }
            else thinkingToTextBlock b) := by
  unfold ConvertThinkingToTextForRecoveryFix
  rw [hp]
  simp only [blockAt, mapIdxFrom_get?, Nat.zero_add, hi, Option.map_some, Option.map_some',
    hc, hj]
  simp [recoveryBlockRewrite, hb]

/-- C8: the signature-recovery transform converts every `thinking` content
block to a `text` block carrying the thinking text, except the block at
content index 0 of the final assistant message, which keeps type `thinking`
and only loses its `signature` field; and recovery is single-shot:
`ShouldRetryWithRecoveryFix` returns `false` whenever the context is
already marked as a recovery attempt, for every status, body, and model. -/
theorem signatureRecoverySpec :
    (∀ (p : ClaudePayload) (msgs : List ClaudeMessage) (i j : Nat)
        (msg : ClaudeMessage) (blocks : List ClaudeBlock) (b : ClaudeBlock),
      p.messages = some msgs → msgs.get? i = some msg →
      msg.content = some blocks → blocks.get? j = some b →
      b.btype = "thinking" →
      blockAt (ConvertThinkingToTextForRecoveryFix p) i j =
        some (if some i = lastAssistantIdx msgs ∧ j = 0 then
                { b with signature := none }
              else thinkingToTextBlock b)) ∧
    (∀ (statusCode : Int) (body : GoBody) (model : String),
      ShouldRetryWithRecoveryFix statusCode body model true = false) :=
  ⟨recoveryTransform_blockAt, fun _ _ _ => rfl⟩

/-- Witness for C8 on a two-message payload whose assistant reply holds two
thinking blocks: the user-message thinking block and the assistant's second
thinking block become text blocks carrying their thinking content; the
assistant's first block keeps type `thinking` and only loses `signature`;
and the retry guard refuses a marked recovery attempt on a matching 400. -/
theorem signatureRecoverySpec_witness :
    (blockAt (ConvertThinkingToTextForRecoveryFix c8WitnessPayload) 0 0 =
      some { btype := "text", thinking := none, signature := none, text := some "t0" }) ∧
    (blockAt (ConvertThinkingToTextForRecoveryFix c8WitnessPayload) 1 0 =
      some { btype := "thinking", thinking := some "t1", signature := none }) ∧
    (blockAt (ConvertThinkingToTextForRecoveryFix c8WitnessPayload) 1 1 =
      some { btype := "text", thinking := none, signature := none, text := some "t2" }) ∧
    ShouldRetryWithRecoveryFix 400
      { text := "Invalid `signature` in `thinking` block" } "claude-sonnet-4-5" true =
      false := by
  refine ⟨?_, ?_, ?_, signatureRecoverySpec.2 400 _ _⟩
  · exact (signatureRecoverySpec.1 c8WitnessPayload c8WitnessMsgs 0 0 _ _ _
      rfl rfl rfl rfl rfl).trans rfl
  · exact (signatureRecoverySpec.1 c8WitnessPayload c8WitnessMsgs 1 0 _ _ _
      rfl rfl rfl rfl rfl).trans rfl
  · exact (signatureRecoverySpec.1 c8WitnessPayload c8WitnessMsgs 1 1 _ _ _
      rfl rfl rfl rfl rfl).trans rfl

/-- C5 counterexample: the claim as stated says that whenever the incoming
map's normalization differs from the stored entry's map, `Set` replaces the
entry and sets dirty.  But a nonempty map whose keys all normalize to `""`
normalizes to the empty map — different from the stored one — and `Set`
returns `false` without touching the store. -/
theorem storeSet_claim_counterexample :
    (let stored : QuotaMap := [("m", { percent := ⟨5, 0⟩ })]
    let entry : StoreEntry := { provider := "antigravity", updatedAt := 0, models := stored }
    let s : Store := { authQuotas := [("a1", entry)], dirty := false }
    let incoming : QuotaMap := [(" ", { percent := ⟨7, 0⟩ })]
    normalizeModelQuotaMap incoming = [] ∧
    modelQuotaMapEqual stored (normalizeModelQuotaMap incoming) = false ∧
    Store.set s "a1" "antigravity" incoming 100 = (false, s)) := by
  decide

theorem storeSet_spec (s : Store) (authID provider : String) (models : QuotaMap)
    (t : GoTime) (hid : authID ≠ "") (hnorm : normalizeModelQuotaMap models ≠ []) :
    ((∃ existing, lookupSE s.authQuotas authID = some existing ∧
        existing.provider = provider ∧
        modelQuotaMapEqual existing.models (normalizeModelQuotaMap models) = true) →
      Store.set s authID provider models t = (false, s)) ∧
    ((∀ existing, lookupSE s.authQuotas authID = some existing →
        ¬(existing.provider = provider ∧
          modelQuotaMapEqual existing.models (normalizeModelQuotaMap models) = true)) →
      Store.set s authID provider models t =
        (true,
          { authQuotas :=
              setSE s.authQuotas authID
                ⟨provider, t, normalizeModelQuotaMap models⟩
            dirty := true })) := by
  have hmodels : models ≠ [] := by
    intro h
    exact hnorm (by simp [h, normalizeModelQuotaMap])
  constructor
  · rintro ⟨existing, hlook, hprov, heq⟩
    simp only [Store.set, hlook]
    rw [if_neg (by simp [hid, hmodels]), if_neg hnorm, if_pos ⟨hprov, heq⟩]
  · intro hne
    simp only [Store.set]
    rw [if_neg (by simp [hid, hmodels]), if_neg hnorm]
    cases hlook : lookupSE s.authQuotas authID with
    | none => rfl
    | some existing => simp only [if_neg (hne existing hlook)]

/-- Witness for C5 (amended): with the stored snapshot for `a1` holding
`claude-sonnet-4-5 ↦ 75.5`, re-setting an equal map (spelled with a path
prefix, a thinking suffix, and an out-of-range duplicate that is clamped
then deduplicated away) returns `changed = false` and leaves the store
unchanged, while setting a genuinely different percent replaces the entry
and sets dirty. -/
theorem storeSet_spec_witness :
    Store.set c5Store "a1" "antigravity" c5Same 100 = (false, c5Store) ∧
    Store.set c5Store "a1" "antigravity" c5Different 100 =
      (true,
        { authQuotas :=
            [("a1", ⟨"antigravity", 100, [("claude-sonnet-4-5", { percent := ⟨60, 0⟩ })]⟩)]
          dirty := true }) := by
  refine ⟨?_, ?_⟩
  · exact (storeSet_spec c5Store "a1" "antigravity" c5Same 100 (by decide) (by decide)).1
      ⟨⟨"antigravity", 0, c5Stored⟩, by decide, by decide, by decide⟩
  · refine ((storeSet_spec c5Store "a1" "antigravity" c5Different 100 (by decide)
      (by decide)).2 ?_).trans (by decide)
    intro existing hlook
    have h2 : lookupSE c5Store.authQuotas "a1" =
        some (⟨"antigravity", 0, c5Stored⟩ : StoreEntry) := by decide
    have hex : existing = ⟨"antigravity", 0, c5Stored⟩ :=
      Option.some.inj (hlook.symm.trans h2)
    subst hex
    decide

/-- C6 counterexample: the claim says `UpdateMetadata` returns
`changed = false` exactly when the new normalized map equals the stored one
(within the percent epsilon, with exact reset times, provider unchanged).
But an incoming map that normalizes to the empty map returns `false`
unconditionally, even though it differs from the nonempty stored map. -/
theorem updateMetadata_claim_counterexample :
    (UpdateMetadata (some c6Metadata) "antigravity" [] 100).1 = false ∧
    modelQuotaEqual (metadataExistingModels c6Metadata) (normalizeModelQuota []) =
      false := by
  decide

/-- C6 (amended): provided the metadata map is non-nil and the incoming map
normalizes to a nonempty map, `UpdateMetadata` returns `changed = false`
exactly when the resolved provider matches the stored one
(case-insensitively) and the new normalized model map equals the stored
snapshot within a percent epsilon of `1e-4` and exact reset-time equality;
and whenever it reports `false` for an auth's metadata, the poller's
`persistQuota` issues no manager `Update` call for that auth. -/
theorem updateMetadataSpec :
    (∀ (md : Metadata) (provider : String) (models : QuotaMap) (t : GoTime),
      normalizeModelQuota models ≠ [] →
      ((UpdateMetadata (some md) provider models t).1 = false ↔
        resolvedProvider md provider =
          toLowerStr (trimStr (metadataExistingProvider md)) ∧
        modelQuotaEqual (metadataExistingModels md) (normalizeModelQuota models) =
          true)) ∧
    (∀ (a : Auth) (provider : String) (models : QuotaMap) (now : GoTime),
      (UpdateMetadata (some (a.metadata.getD [])) provider models now).1 = false →
      persistQuotaIssuesUpdate (some a) provider models now = false) := by
  constructor
  · intro md provider models t hnorm
    simp only [UpdateMetadata]
    rw [if_neg hnorm]
    by_cases hc : resolvedProvider md provider =
        toLowerStr (trimStr (metadataExistingProvider md)) ∧
        modelQuotaEqual (metadataExistingModels md) (normalizeModelQuota models) = true
    · rw [if_pos hc]
      simp [hc]
    · rw [if_neg hc]
      simp [hc]
  · intro a provider models now h
    simp only [persistQuotaIssuesUpdate]
    by_cases hm : models = []
    · simp [hm]
    · rw [if_neg hm]
      cases ham : a.metadata with
      | none =>
          simp only [ham, Option.getD] at h
          exact h
      | some m =>
          simp only [ham, Option.getD] at h
          exact h

/-- Witness for C6 at concrete inputs: against the stored snapshot
(`antigravity`, `claude-sonnet-4-5 ↦ 5`, no reset), an incoming map spelled
`ns/Claude-Sonnet-4-5 ↦ 5.0001` with provider `"Antigravity "` normalizes
to an equal snapshot (percent within the `1e-4` epsilon), so `UpdateMetadata`
reports no change and `persistQuota` issues no `Update`. -/
theorem updateMetadataSpec_witness :
    (UpdateMetadata (some c6Metadata) "Antigravity "
      [("ns/Claude-Sonnet-4-5", { percent := ⟨50001, 4⟩ })] 100).1 = false ∧
    persistQuotaIssuesUpdate (some { id := "a1", metadata := some c6Metadata })
      "Antigravity " [("ns/Claude-Sonnet-4-5", { percent := ⟨50001, 4⟩ })] 100 =
      false := by
  have h := (updateMetadataSpec.1 c6Metadata "Antigravity "
    [("ns/Claude-Sonnet-4-5", { percent := ⟨50001, 4⟩ })] 100 (by decide)).mpr
    ⟨by decide, by decide⟩
  exact ⟨h, updateMetadataSpec.2 { id := "a1", metadata := some c6Metadata }
    "Antigravity " [("ns/Claude-Sonnet-4-5", { percent := ⟨50001, 4⟩ })] 100 h⟩

theorem char_toNat_ofNat_valid (n : Nat) (h : n < 55296) : (Char.ofNat n).toNat = n := by
  unfold Char.ofNat
  rw [dif_pos (Or.inl h : n.isValidChar)]
  simp [Char.ofNatAux, Char.toNat, UInt32.toNat]

theorem char_eq_iff_toNat (a b : Char) : a = b ↔ a.toNat = b.toNat :=
  ⟨fun h => by rw [h], fun h => Char.ext (UInt32.ext h)⟩

theorem toLowerChar_toNat (c : Char) :
    (toLowerChar c).toNat = if 65 ≤ c.toNat ∧ c.toNat ≤ 90 then c.toNat + 32 else c.toNat := by
  unfold toLowerChar
  by_cases h : ('A' ≤ c && c ≤ 'Z') = true
  · rw [if_pos h]
    simp only [Bool.and_eq_true, decide_eq_true_eq] at h
    have h65 : 65 ≤ c.toNat := by
      have := h.1
      simp [Char.le_def] at this
      exact this
    have h90 : c.toNat ≤ 90 := by
      have := h.2
      simp [Char.le_def] at this
      exact this
    rw [if_pos ⟨h65, h90⟩, char_toNat_ofNat_valid _ (by omega)]
  · rw [if_neg h]
    simp only [Bool.and_eq_true, decide_eq_true_eq, not_and_or] at h
    rw [if_neg]
    rintro ⟨h65, h90⟩
    rcases h with h | h
    · refine h ?_
      simp [Char.le_def]
      exact h65
    · refine h ?_
      simp [Char.le_def]
      exact h90

theorem goIsSpace_iff_toNat (c : Char) :
    goIsSpace c = true ↔
      (c.toNat = 32 ∨ c.toNat = 9 ∨ c.toNat = 10 ∨ c.toNat = 11 ∨ c.toNat = 12 ∨
        c.toNat = 13 ∨ c.toNat = 133 ∨ c.toNat = 160) := by
  simp only [goIsSpace, Bool.or_eq_true, beq_iff_eq, char_eq_iff_toNat]
  have e1 : (' ' : Char).toNat = 32 := rfl
  have e2 : ('\t' : Char).toNat = 9 := rfl
  have e3 : ('\n' : Char).toNat = 10 := rfl
  have e4 : ('\x0b' : Char).toNat = 11 := rfl
  have e5 : ('\x0c' : Char).toNat = 12 := rfl
  have e6 : ('\r' : Char).toNat = 13 := rfl
  have e7 : ('\x85' : Char).toNat = 133 := rfl
  have e8 : ('\xa0' : Char).toNat = 160 := rfl
  rw [e1, e2, e3, e4, e5, e6, e7, e8]
  tauto

theorem goIsSpace_toLowerChar (c : Char) : goIsSpace (toLowerChar c) = goIsSpace c := by
  rw [Bool.eq_iff_iff, goIsSpace_iff_toNat, goIsSpace_iff_toNat, toLowerChar_toNat]
  split_ifs with hr
  · constructor <;> intro hx <;> omega
  · exact Iff.rfl

theorem toLowerChar_fix (c : Char) (h : ¬(65 ≤ c.toNat ∧ c.toNat ≤ 90)) :
    toLowerChar c = c := by
  rw [char_eq_iff_toNat, toLowerChar_toNat, if_neg h]

theorem toLowerChar_idem (c : Char) : toLowerChar (toLowerChar c) = toLowerChar c := by
  apply toLowerChar_fix
  rw [toLowerChar_toNat]
  split_ifs with h <;> omega

theorem toLowerChar_eq_slash (c : Char) : toLowerChar c = '/' ↔ c = '/' := by
  rw [char_eq_iff_toNat, char_eq_iff_toNat, toLowerChar_toNat]
  have h47 : ('/' : Char).toNat = 47 := rfl
  rw [h47]
  split_ifs with h
  · constructor <;> intro <;> omega
  · exact Iff.rfl

theorem goIsSpace_slash : goIsSpace '/' = false := rfl


theorem dropWhile_head_false (p : Char → Bool) :
    ∀ (l : List Char) (c : Char), (l.dropWhile p).head? = some c → p c = false
  | [], c => by simp
  | a :: rest, c => by
      rw [List.dropWhile_cons]
      split_ifs with ha
      · exact dropWhile_head_false p rest c
      · intro h
        cases h
        simpa using ha

theorem dropWhile_append_split (p : Char → Bool) (l s : List Char) :
    List.dropWhile p (l ++ s) =
      if l.dropWhile p = [] then s.dropWhile p else l.dropWhile p ++ s := by
  induction l with
  | nil => simp
  | cons c t ih =>
      by_cases hc : p c = true
      · have l1 : List.dropWhile p ((c :: t) ++ s) = List.dropWhile p (t ++ s) := by
          rw [List.cons_append, List.dropWhile_cons, if_pos hc]
        have l2 : List.dropWhile p (c :: t) = List.dropWhile p t := by
          rw [List.dropWhile_cons, if_pos hc]
        rw [l1, l2, ih]
      · have l1 : List.dropWhile p ((c :: t) ++ s) = c :: (t ++ s) := by
          rw [List.cons_append, List.dropWhile_cons, if_neg hc]
        have l2 : List.dropWhile p (c :: t) = c :: t := by
          rw [List.dropWhile_cons, if_neg hc]
        rw [l1, l2, if_neg (by simp)]
        simp

theorem dropWhile_eq_nil_of_all (p : Char → Bool) (l : List Char)
    (h : ∀ x ∈ l, p x = true) : l.dropWhile p = [] := by
  induction l with
  | nil => rfl
  | cons c t ih =>
      rw [List.dropWhile_cons, if_pos (h c (by simp))]
      exact ih fun x hx => h x (by simp [hx])

theorem trimList_eq_trimRight_trimLeft (l : List Char) :
    trimList l = trimRight (trimLeft l) := rfl

theorem trimLeft_append_of_ne_nil (l s : List Char) (h : trimLeft l ≠ []) :
    trimLeft (l ++ s) = trimLeft l ++ s := by
  unfold trimLeft at h ⊢
  rw [dropWhile_append_split, if_neg h]

theorem trimRight_append_of_ne_nil (l s : List Char) (h : trimRight s ≠ []) :
    trimRight (l ++ s) = l ++ trimRight s := by
  unfold trimRight at h ⊢
  rw [List.reverse_append, dropWhile_append_split]
  rw [if_neg (by simpa using h)]
  simp


theorem trim_of_ends (l : List Char)
    (hh : ∀ c, l.head? = some c → goIsSpace c = false)
    (hl : ∀ c, l.getLast? = some c → goIsSpace c = false) :
    trimList l = l := by
  have h1 : l.dropWhile goIsSpace = l := by
    cases l with
    | nil => rfl
    | cons c t => rw [List.dropWhile_cons, if_neg (by simp [hh c rfl])]
  have h2 : l.reverse.dropWhile goIsSpace = l.reverse := by
    cases hr : l.reverse with
    | nil => rfl
    | cons c t =>
        have hc : l.getLast? = some c := by
          rw [← List.head?_reverse l, hr]
          rfl
        rw [List.dropWhile_cons, if_neg (by simp [hl c hc])]
  rw [trimList, h1, h2, List.reverse_reverse]

theorem afterLastSlash_no_slash : ∀ (l : List Char), '/' ∉ afterLastSlash l
  | [] => by simp [afterLastSlash]
  | c :: rest => by
      rw [afterLastSlash]
      split_ifs with h1 h2
      · exact afterLastSlash_no_slash rest
      · intro hm
        exact (by simpa using h1 : ¬('/' ∈ rest)) hm
      · intro hm
        rcases List.mem_cons.mp hm with he | hm2
        · exact h2 he.symm
        · exact (by simpa using h1 : ¬('/' ∈ rest)) hm2

theorem afterLastSlash_of_no_slash : ∀ (l : List Char), '/' ∉ l → afterLastSlash l = l
  | [], _ => rfl
  | c :: rest, h => by
      have h1 : '/' ∉ rest := fun hm => h (List.mem_cons.mpr (Or.inr hm))
      have h2 : c ≠ '/' := fun he => h (List.mem_cons.mpr (Or.inl he.symm))
      rw [afterLastSlash, if_neg (by simpa using h1), if_neg h2]

theorem afterLastSlash_append_no_slash :
    ∀ (z ws : List Char), '/' ∉ ws → afterLastSlash (z ++ ws) = afterLastSlash z ++ ws
  | [], ws, h => by
      rw [List.nil_append, afterLastSlash_of_no_slash ws h]
      rfl
  | c :: t, ws, h => by
      rw [List.cons_append, afterLastSlash, afterLastSlash]
      have hcont : ((t ++ ws).contains '/') = (t.contains '/') := by
        rcases hct : t.contains '/' with _ | _
        · simp only [Bool.eq_false_iff]
          intro habs
          rcases List.elem_iff.mp habs with hm
          rcases List.mem_append.mp hm with hm1 | hm2
          · exact (by simpa using hct : ¬('/' ∈ t)) hm1
          · exact h hm2
        · have : '/' ∈ t := by simpa using hct
          exact List.elem_iff.mpr (List.mem_append.mpr (Or.inl this))
      rw [hcont]
      split_ifs with h1 h2
      · exact afterLastSlash_append_no_slash t ws h
      · rfl
      · rw [List.cons_append]

theorem exists_trimRight_decomp (y : List Char) :
    ∃ ws, y = trimRight y ++ ws ∧ ∀ c ∈ ws, goIsSpace c = true := by
  refine ⟨(y.reverse.takeWhile goIsSpace).reverse, ?_, ?_⟩
  · conv_lhs => rw [← List.reverse_reverse y, ← List.takeWhile_append_dropWhile goIsSpace y.reverse]
    rw [List.reverse_append]
    rfl
  · intro c hc
    exact List.mem_takeWhile_imp (List.mem_reverse.mp hc)

theorem trim_append_spaces (z ws : List Char) (hws : ∀ c ∈ ws, goIsSpace c = true) :
    trimList (z ++ ws) = trimList z := by
  have hdw : ws.dropWhile goIsSpace = [] := dropWhile_eq_nil_of_all _ _ hws
  have hdwr : ws.reverse.dropWhile goIsSpace = [] :=
    dropWhile_eq_nil_of_all _ _ fun c hc => hws c (List.mem_reverse.mp hc)
  unfold trimList
  rw [dropWhile_append_split]
  by_cases hz : z.dropWhile goIsSpace = []
  · rw [if_pos hz, hdw, hz]
  · rw [if_neg hz, List.reverse_append, dropWhile_append_split, if_pos hdwr]

theorem trimLeft_ne_nil_of_trim (l : List Char) (h : trimList l ≠ []) :
    l.dropWhile goIsSpace ≠ [] := by
  intro habs
  apply h
  rw [trimList, habs]
  rfl


theorem mem_trimList (l : List Char) (c : Char) (h : c ∈ trimList l) : c ∈ l := by
  rw [trimList] at h
  rw [List.mem_reverse] at h
  have h2 := List.Sublist.mem h (List.dropWhile_sublist goIsSpace)
  rw [List.mem_reverse] at h2
  exact List.Sublist.mem h2 (List.dropWhile_sublist goIsSpace)

theorem trimList_getLast_not_space (l : List Char) :
    ∀ c, (trimList l).getLast? = some c → goIsSpace c = false := by
  intro c hc
  rw [trimList, List.getLast?_reverse] at hc
  exact dropWhile_head_false _ _ _ hc

theorem trimList_head_not_space (l : List Char) :
    ∀ c, (trimList l).head? = some c → goIsSpace c = false := by
  intro c hc
  rw [trimList, List.head?_reverse] at hc
  by_cases hw : (l.dropWhile goIsSpace).reverse.dropWhile goIsSpace = []
  · rw [hw] at hc
    simp at hc
  · have h2 : ((l.dropWhile goIsSpace).reverse.dropWhile goIsSpace).getLast? =
        ((l.dropWhile goIsSpace).reverse).getLast? := by
      conv_rhs =>
        rw [← List.takeWhile_append_dropWhile goIsSpace (l.dropWhile goIsSpace).reverse]
      rw [List.getLast?_append_of_ne_nil _ hw]
    rw [h2, List.getLast?_reverse] at hc
    exact dropWhile_head_false _ _ _ hc

theorem normalize_output_shape (l0 : List Char) :
    normalizeModelKeyList l0 = [] ∨
    ∃ z, normalizeModelKeyList l0 = toLowerList (trimList (afterLastSlash z)) ∧
      trimList (afterLastSlash z) ≠ [] := by
  simp only [normalizeModelKeyList]
  split_ifs <;>
    first
      | exact Or.inl rfl
      | exact Or.inr ⟨_, rfl, by assumption⟩

theorem normalize_fixpoint (z : List Char)
    (hne : trimList (afterLastSlash z) ≠ [])
    (hns : endsWithList (toLowerList (trimList (afterLastSlash z))) thinkingSuffix = false) :
    normalizeModelKeyList (toLowerList (trimList (afterLastSlash z))) =
      toLowerList (trimList (afterLastSlash z)) := by
  set t := trimList (afterLastSlash z) with ht
  set r := toLowerList t with hr
  have f1 : r ≠ [] := by
    rw [hr, toLowerList]
    simpa using hne
  have f2 : trimList r = r := by
    apply trim_of_ends
    · intro c hc
      rw [hr, toLowerList, List.head?_map] at hc
      cases htc : t.head? with
      | none => rw [htc] at hc; simp at hc
      | some c0 =>
          rw [htc] at hc
          have hcc : c = toLowerChar c0 := by
            simpa using hc.symm
          rw [hcc, goIsSpace_toLowerChar]
          exact trimList_head_not_space _ c0 htc
    · intro c hc
      rw [hr, toLowerList, List.getLast?_map] at hc
      cases htc : t.getLast? with
      | none => rw [htc] at hc; simp at hc
      | some c0 =>
          rw [htc] at hc
          have hcc : c = toLowerChar c0 := by
            simpa using hc.symm
          rw [hcc, goIsSpace_toLowerChar]
          exact trimList_getLast_not_space _ c0 htc
  have f4 : '/' ∉ r := by
    intro hm
    rw [hr, toLowerList] at hm
    rcases List.mem_map.mp hm with ⟨c0, hc0, hlo⟩
    have : c0 = '/' := (toLowerChar_eq_slash c0).mp hlo
    subst this
    exact afterLastSlash_no_slash _ (mem_trimList _ _ hc0)
  have f5 : toLowerList r = r := by
    rw [hr, toLowerList, toLowerList, List.map_map]
    exact List.map_congr_left fun a _ => toLowerChar_idem a
  have f3 : parseSuffixModelName r = [] := by
    rw [parseSuffixModelName, if_neg (by simp [hns])]
  simp only [normalizeModelKeyList]
  rw [f2, if_neg f1, f3, if_neg (by simp : ¬(([] : List Char) ≠ [])),
    afterLastSlash_of_no_slash r f4, f2, if_neg f1, f5]


theorem endsWith_append_self (x s : List Char) : endsWithList (x ++ s) s = true := by
  rw [endsWithList, decide_eq_true_eq, List.isSuffixOf_iff_suffix]
  exact List.suffix_append x s

theorem trimSuffix_append (x s : List Char) : trimSuffixList (x ++ s) s = x := by
  rw [trimSuffixList, if_pos (endsWith_append_self x s), List.length_append,
    Nat.add_sub_cancel, List.take_left]

theorem parseSuffix_append (x : List Char) :
    parseSuffixModelName (x ++ thinkingSuffix) = x := by
  rw [parseSuffixModelName, if_pos (endsWith_append_self x thinkingSuffix),
    trimSuffix_append]

theorem trim_append_thinking (l : List Char) :
    trimList (l ++ thinkingSuffix) = trimLeft l ++ thinkingSuffix := by
  have h1 : trimLeft (l ++ thinkingSuffix) = trimLeft l ++ thinkingSuffix := by
    unfold trimLeft
    rw [dropWhile_append_split]
    split_ifs with h
    · rw [h, (by decide : thinkingSuffix.dropWhile goIsSpace = thinkingSuffix)]
      rfl
    · rfl
  rw [trimList_eq_trimRight_trimLeft, h1,
    trimRight_append_of_ne_nil _ _ (by decide),
    (by decide : trimRight thinkingSuffix = thinkingSuffix)]

theorem trim_after_trimLeft (l : List Char) :
    trimList (afterLastSlash (trimLeft l)) = trimList (afterLastSlash (trimList l)) := by
  obtain ⟨ws, hdecomp, hsp⟩ := exists_trimRight_decomp (trimLeft l)
  have hnosl : '/' ∉ ws := by
    intro hm
    have := hsp '/' hm
    rw [goIsSpace_slash] at this
    exact Bool.false_ne_true this
  calc trimList (afterLastSlash (trimLeft l))
      = trimList (afterLastSlash (trimRight (trimLeft l) ++ ws)) := by rw [← hdecomp]
    _ = trimList (afterLastSlash (trimRight (trimLeft l)) ++ ws) := by
        rw [afterLastSlash_append_no_slash _ _ hnosl]
    _ = trimList (afterLastSlash (trimRight (trimLeft l))) := trim_append_spaces _ _ hsp
    _ = trimList (afterLastSlash (trimList l)) := by rw [trimList_eq_trimRight_trimLeft l]

theorem normalizeList_append_thinking (l : List Char) (h1 : trimList l ≠ [])
    (h2 : endsWithList (trimList l) thinkingSuffix = false) :
    normalizeModelKeyList (l ++ thinkingSuffix) = normalizeModelKeyList l := by
  have htl : trimLeft l ≠ [] := trimLeft_ne_nil_of_trim l h1
  have hne : trimLeft l ++ thinkingSuffix ≠ [] := by
    intro habs
    have := congrArg List.length habs
    simp [thinkingSuffix] at this
  conv_lhs =>
    simp only [normalizeModelKeyList]
    rw [trim_append_thinking l, if_neg hne, parseSuffix_append (trimLeft l),
      if_pos htl]
  conv_rhs =>
    simp only [normalizeModelKeyList]
    rw [if_neg h1]
    rw [(by rw [parseSuffixModelName, if_neg (by simp [h2])] :
      parseSuffixModelName (trimList l) = ([] : List Char))]
    rw [if_neg (by simp : ¬(([] : List Char) ≠ []))]
  rw [trim_after_trimLeft l]

theorem normalizeModelKeySpec_parts (m : String)
    (h : endsWithList (NormalizeModelKey m).data thinkingSuffix = false) :
    NormalizeModelKey (NormalizeModelKey m) = NormalizeModelKey m := by
  have hdataeq : (NormalizeModelKey m).data = normalizeModelKeyList m.data := rfl
  rcases normalize_output_shape m.data with hz | ⟨z, hz, hne⟩
  · apply congrArg String.mk
    rw [hdataeq, hz]
    decide
  · apply congrArg String.mk
    rw [hdataeq, hz]
    rw [hdataeq, hz] at h
    exact normalize_fixpoint z hne h

/-- C4 (amended): NormalizeModelKey is total; it is idempotent on every model
whose normalization does not end in the thinking-suffix marker; it maps the
empty string to itself; the scheme normalize(X-thinking) = normalize(X) holds
whenever X trims to a nonempty string not already ending in the marker; and
normalize of a slash-qualified name keeps only the lowercased last segment. -/
theorem normalizeModelKey_spec :
    (∀ m : String, endsWithList (NormalizeModelKey m).data thinkingSuffix = false →
        NormalizeModelKey (NormalizeModelKey m) = NormalizeModelKey m) ∧
    NormalizeModelKey "" = "" ∧
    (∀ m : String, trimList m.data ≠ [] →
        endsWithList (trimList m.data) thinkingSuffix = false →
        NormalizeModelKey (m ++ "-thinking") = NormalizeModelKey m) ∧
    NormalizeModelKey "ns/Foo" = "foo" := by
  refine ⟨?_, by decide, ?_, by decide⟩
  · intro m h
    exact normalizeModelKeySpec_parts m h
  · intro m h1 h2
    apply congrArg String.mk
    show normalizeModelKeyList (m ++ "-thinking").data = normalizeModelKeyList m.data
    rw [String.data_append]
    exact normalizeList_append_thinking m.data h1 h2

/-- C4 counterexample to the literal claim: normalization strips one thinking
marker per pass, so a doubly suffixed name is not a fixpoint after one pass,
refuting unconditional idempotence and the unconditional X-thinking scheme. -/
theorem normalizeModelKey_claim_counterexample :
    NormalizeModelKey "x-thinking-thinking" = "x-thinking" ∧
    NormalizeModelKey (NormalizeModelKey "x-thinking-thinking") = "x" ∧
    NormalizeModelKey "x-thinking-thinking" ≠ "x" ∧
    NormalizeModelKey ("x-thinking" ++ "-thinking") ≠ NormalizeModelKey "x-thinking" := by
  exact ⟨by decide, by decide, by decide, by decide⟩

/-- Witness for C4 at concrete inputs. -/
theorem normalizeModelKey_spec_witness :
    endsWithList (NormalizeModelKey " NS/Foo-thinking ").data thinkingSuffix = false ∧
    NormalizeModelKey (NormalizeModelKey " NS/Foo-thinking ") =
      NormalizeModelKey " NS/Foo-thinking " ∧
    trimList ("ns/Foo" : String).data ≠ [] ∧
    endsWithList (trimList ("ns/Foo" : String).data) thinkingSuffix = false ∧
    NormalizeModelKey ("ns/Foo" ++ "-thinking") = NormalizeModelKey "ns/Foo" :=
  ⟨by decide, normalizeModelKey_spec.1 " NS/Foo-thinking " (by decide),
   by decide, by decide,
   normalizeModelKey_spec.2.2.1 "ns/Foo" (by decide) (by decide)⟩

theorem round_mono_real {x y : ℝ} (h : x ≤ y) : round x ≤ round y := by
  rw [round_eq, round_eq]
  exact Int.floor_le_floor (by linarith)

theorem quotaToWeight_antitone_reset (p : GoFloat) (u1 u2 : GoTime)
    (t1 t2 now : GoTime) (h1 : t1.isZero = false) (h2 : t2.isZero = false)
    (hle : t1 ≤ t2) :
    quotaToWeight ⟨p, u2, t2⟩ now ≤ quotaToWeight ⟨p, u1, t1⟩ now := by
  simp only [quotaToWeight, h1, h2, Bool.false_eq_true, if_false]
  by_cases hp : p.toReal ≤ 0
  · rw [if_pos hp, if_pos hp]
  · rw [if_neg hp, if_neg hp]
    set pc : ℝ := if 100 < p.toReal then (100 : ℝ) else p.toReal with hpc
    by_cases hb : pc ^ 3 ≤ 0
    · rw [if_pos hb, if_pos hb]
    · rw [if_neg hb, if_neg hb]
      have hbpos : 0 < pc ^ 3 := lt_of_not_le hb
      have hrem : ((t1 - now : ℤ) : ℝ) ≤ ((t2 - now : ℤ) : ℝ) := by
        exact_mod_cast Int.sub_le_sub_right hle now
      have hmax : max ((t1 - now : ℤ) : ℝ) 0 ≤ max ((t2 - now : ℤ) : ℝ) 0 :=
        max_le_max hrem le_rfl
      have hexp : Real.exp (-(max ((t2 - now : ℤ) : ℝ) 0) / quotaResetTau) ≤
          Real.exp (-(max ((t1 - now : ℤ) : ℝ) 0) / quotaResetTau) := by
        apply Real.exp_le_exp.mpr
        have htau : (0 : ℝ) < quotaResetTau := by norm_num [quotaResetTau]
        exact div_le_div_of_nonneg_right (by linarith) htau.le
      have hfac : pc ^ 3 * (1 + 0.25 * Real.exp (-(max ((t2 - now : ℤ) : ℝ) 0) / quotaResetTau)) ≤
          pc ^ 3 * (1 + 0.25 * Real.exp (-(max ((t1 - now : ℤ) : ℝ) 0) / quotaResetTau)) := by
        apply mul_le_mul_of_nonneg_left (by linarith) (le_of_lt hbpos)
      have hrle := round_mono_real hfac
      split_ifs <;> omega

theorem quotaToWeight60 (u t now : GoTime) (h : t.isZero = false) (r : ℝ)
    (hr : ((t - now : ℤ) : ℝ) = r) (hrnn : 0 ≤ r) :
    quotaToWeight ⟨⟨60, 0⟩, u, t⟩ now =
      round (216000 * (1 + 0.25 * Real.exp (-r / quotaResetTau))) := by
  simp only [quotaToWeight, h, Bool.false_eq_true, if_false]
  have h60 : GoFloat.toReal ⟨60, 0⟩ = 60 := by norm_num [GoFloat.toReal]
  rw [h60, if_neg (by norm_num : ¬((60 : ℝ) ≤ 0)),
    if_neg (by norm_num : ¬((100 : ℝ) < 60)),
    if_neg (by norm_num : ¬((60 : ℝ) ^ 3 ≤ 0)), hr, max_eq_left hrnn]
  have hfac : (1 : ℝ) ≤ 1 + 0.25 * Real.exp (-r / quotaResetTau) := by
    have := (Real.exp_pos (-r / quotaResetTau)).le
    linarith
  have hbig : (216000 : ℤ) ≤ round ((60 : ℝ) ^ 3 * (1 + 0.25 * Real.exp (-r / quotaResetTau))) := by
    rw [round_eq]
    apply Int.le_floor.mpr
    push_cast
    nlinarith [hfac]
  rw [if_neg (by omega : ¬(round ((60 : ℝ) ^ 3 * (1 + 0.25 * Real.exp (-r / quotaResetTau))) < 0))]
  norm_num

theorem quotaToWeight60_strict (now : GoTime)
    (hz1 : (now + 7200 : GoTime).isZero = false)
    (hz2 : (now + 432000 : GoTime).isZero = false) :
    quotaToWeight ⟨⟨60, 0⟩, goZeroTime, now + 432000⟩ now <
      quotaToWeight ⟨⟨60, 0⟩, goZeroTime, now + 7200⟩ now := by
  rw [quotaToWeight60 goZeroTime (now + 432000) now hz2 432000 (by push_cast; ring) (by norm_num),
    quotaToWeight60 goZeroTime (now + 7200) now hz1 7200 (by push_cast; ring) (by norm_num)]
  have htau : quotaResetTau = 172800 := rfl
  rw [htau]
  have hb : (23 / 24 : ℝ) ≤ Real.exp (-(7200 : ℝ) / 172800) := by
    have h := Real.add_one_le_exp (-(7200 : ℝ) / 172800)
    have : (-(7200 : ℝ) / 172800) = -(1 / 24) := by norm_num
    rw [this] at h ⊢
    linarith
  have ha : Real.exp (-(432000 : ℝ) / 172800) ≤ 2 / 7 := by
    have h2 : (7 / 2 : ℝ) ≤ Real.exp ((432000 : ℝ) / 172800) := by
      have h := Real.add_one_le_exp ((432000 : ℝ) / 172800)
      have : ((432000 : ℝ) / 172800) = 5 / 2 := by norm_num
      rw [this] at h ⊢
      linarith
    have hneg : Real.exp (-(432000 : ℝ) / 172800) =
        (Real.exp ((432000 : ℝ) / 172800))⁻¹ := by
      rw [← Real.exp_neg]
      norm_num
    rw [hneg]
    calc (Real.exp ((432000 : ℝ) / 172800))⁻¹
        ≤ ((7 : ℝ) / 2)⁻¹ := by
          apply inv_anti₀ (by norm_num) h2
      _ = 2 / 7 := by norm_num
  have hlo : (267750 : ℤ) ≤ round ((216000 : ℝ) * (1 + 0.25 * Real.exp (-(7200 : ℝ) / 172800))) := by
    rw [round_eq]
    apply Int.le_floor.mpr
    push_cast
    nlinarith [hb]
  have hhi : round ((216000 : ℝ) * (1 + 0.25 * Real.exp (-(432000 : ℝ) / 172800))) < 267750 := by
    rw [round_eq]
    have hx : ((216000 : ℝ) * (1 + 0.25 * Real.exp (-(432000 : ℝ) / 172800)) + 1 / 2) < 267750 := by
      nlinarith [ha, (Real.exp_pos (-(432000 : ℝ) / 172800)).le]
    exact Int.floor_lt.mpr (by push_cast; linarith)
  exact lt_of_lt_of_le hhi hlo

theorem quotaToWeight1 (t : GoTime) (h : t.isZero = false) (r : ℝ)
    (hr : ((t - 0 : ℤ) : ℝ) = r) (hrnn : 0 ≤ r) :
    quotaToWeight ⟨⟨1, 0⟩, goZeroTime, t⟩ 0 = 1 := by
  simp only [quotaToWeight, h, Bool.false_eq_true, if_false]
  have h1 : GoFloat.toReal ⟨1, 0⟩ = 1 := by norm_num [GoFloat.toReal]
  rw [h1, if_neg (by norm_num : ¬((1 : ℝ) ≤ 0)),
    if_neg (by norm_num : ¬((100 : ℝ) < 1)),
    if_neg (by norm_num : ¬((1 : ℝ) ^ 3 ≤ 0)), hr, max_eq_left hrnn]
  have htau : (0 : ℝ) < quotaResetTau := by norm_num [quotaResetTau]
  have hexple : Real.exp (-r / quotaResetTau) ≤ 1 := by
    rw [← Real.exp_zero]
    apply Real.exp_le_exp.mpr
    have hnum : (-r : ℝ) ≤ 0 := by linarith
    exact div_nonpos_of_nonpos_of_nonneg hnum htau.le
  have hround : round ((1 : ℝ) ^ 3 * (1 + 0.25 * Real.exp (-r / quotaResetTau))) = 1 := by
    rw [round_eq]
    apply Int.floor_eq_iff.mpr
    constructor
    · push_cast
      nlinarith [(Real.exp_pos (-r / quotaResetTau)).le]
    · push_cast
      nlinarith [hexple]
  rw [hround]
  norm_num

/-- C3 counterexample to the literal claim: at percent 1 the base weight is 1
and the reset boost factor lies in (1, 1.25], so integer rounding yields weight
1 for a 2-hour reset and for a 5-day reset alike — the weight is not strictly
decreasing in time-to-reset at every fixed positive percent. -/
theorem quotaToWeight_claim_counterexample :
    quotaToWeight ⟨⟨1, 0⟩, goZeroTime, 7200⟩ 0 = 1 ∧
    quotaToWeight ⟨⟨1, 0⟩, goZeroTime, 432000⟩ 0 = 1 ∧
    ¬(quotaToWeight ⟨⟨1, 0⟩, goZeroTime, 432000⟩ 0 <
        quotaToWeight ⟨⟨1, 0⟩, goZeroTime, 7200⟩ 0) := by
  have e1 := quotaToWeight1 7200 (by decide) 7200 (by norm_num) (by norm_num)
  have e2 := quotaToWeight1 432000 (by decide) 432000 (by norm_num) (by norm_num)
  exact ⟨e1, e2, by rw [e1, e2]; omega⟩

/-- C3 (amended): at fixed percent the computed weight is weakly decreasing in
time-to-reset (sooner reset never weighs less), and at the spec's own example —
percent 60, reset now+2h versus now+5d — the sooner-resetting entry's weight is
strictly larger. -/
theorem quotaToWeight_reset_monotonicity :
    (∀ (p : GoFloat) (u1 u2 t1 t2 now : GoTime),
        t1.isZero = false → t2.isZero = false → t1 ≤ t2 →
        quotaToWeight ⟨p, u2, t2⟩ now ≤ quotaToWeight ⟨p, u1, t1⟩ now) ∧
    (∀ now : GoTime, (now + 7200 : GoTime).isZero = false →
        (now + 432000 : GoTime).isZero = false →
        quotaToWeight ⟨⟨60, 0⟩, goZeroTime, now + 432000⟩ now <
          quotaToWeight ⟨⟨60, 0⟩, goZeroTime, now + 7200⟩ now) :=
  ⟨fun p u1 u2 t1 t2 now h1 h2 hle =>
      quotaToWeight_antitone_reset p u1 u2 t1 t2 now h1 h2 hle,
    fun now hz1 hz2 => quotaToWeight60_strict now hz1 hz2⟩

/-- Witness for C3 at concrete inputs (reset times 2h and 5d past epoch 0). -/
theorem quotaToWeight_reset_monotonicity_witness :
    ((7200 : GoTime).isZero = false ∧ (432000 : GoTime).isZero = false ∧
      (7200 : GoTime) ≤ 432000 ∧
      quotaToWeight ⟨⟨60, 0⟩, goZeroTime, 432000⟩ 0 ≤
        quotaToWeight ⟨⟨60, 0⟩, goZeroTime, 7200⟩ 0) ∧
    (((0 : GoTime) + 7200).isZero = false ∧ ((0 : GoTime) + 432000).isZero = false ∧
      quotaToWeight ⟨⟨60, 0⟩, goZeroTime, (0 : GoTime) + 432000⟩ 0 <
        quotaToWeight ⟨⟨60, 0⟩, goZeroTime, (0 : GoTime) + 7200⟩ 0) :=
  ⟨⟨by decide, by decide, by decide,
      quotaToWeight_reset_monotonicity.1 ⟨60, 0⟩ goZeroTime goZeroTime 7200 432000 0
        (by decide) (by decide) (by decide)⟩,
    ⟨by decide, by decide,
      quotaToWeight_reset_monotonicity.2 0 (by decide) (by decide)⟩⟩

theorem lookupAssoc_setAssoc_self {α : Type} (m : List (String × α)) (k : String) (v : α) :
    lookupAssoc (setAssoc m k v) k = some v := by
  induction m with
  | nil => simp [setAssoc, lookupAssoc]
  | cons hd tl ih =>
      obtain ⟨k', v'⟩ := hd
      by_cases h : k' = k
      · simp [setAssoc, lookupAssoc, h]
      · simp [setAssoc, lookupAssoc, h, ih]

theorem lookupAssoc_setAssoc_ne {α : Type} (m : List (String × α)) (k k' : String)
    (v : α) (h : k' ≠ k) : lookupAssoc (setAssoc m k v) k' = lookupAssoc m k' := by
  have hkk : k ≠ k' := fun hh => h hh.symm
  induction m with
  | nil =>
      simp only [setAssoc, lookupAssoc, if_neg hkk]
  | cons hd tl ih =>
      obtain ⟨k0, v0⟩ := hd
      by_cases h0 : k0 = k
      · subst h0
        simp only [setAssoc, if_pos rfl, lookupAssoc, if_neg hkk]
      · simp only [setAssoc, if_neg h0, lookupAssoc]
        by_cases h1 : k0 = k'
        · simp [h1]
        · simp [h1, ih]

theorem wrrLoop_fst (cands : List (Auth × Int)) :
    ∀ (st : CursorMap) (i b : Nat) (s : Int) (bset : Bool),
      (wrrLoop st cands i b s bset).1 = stAfter st cands := by
  induction cands with
  | nil => intro st i b s bset; rfl
  | cons hd rest ih =>
      intro st i b s bset
      obtain ⟨c, w⟩ := hd
      simp only [wrrLoop, stAfter]
      split_ifs <;> apply ih

theorem stAfter_lookup_not_mem (cands : List (Auth × Int)) :
    ∀ (st : CursorMap) (k : String),
      k ∉ cands.map (fun cw => cw.1.id) →
      lookupAssoc (stAfter st cands) k = lookupAssoc st k := by
  induction cands with
  | nil => intro st k _; rfl
  | cons hd rest ih =>
      intro st k hk
      obtain ⟨c, w⟩ := hd
      simp only [List.map_cons, List.mem_cons] at hk
      push_neg at hk
      simp only [stAfter]
      rw [ih _ _ hk.2, lookupAssoc_setAssoc_ne _ _ _ _ hk.1]

theorem stAfter_lookup_mem (cands : List (Auth × Int)) :
    ∀ (st : CursorMap),
      (cands.map fun cw => cw.1.id).Nodup →
      ∀ cw ∈ cands,
        lookupAssoc (stAfter st cands) cw.1.id =
          some (((lookupAssoc st cw.1.id).getD 0) + cw.2) := by
  induction cands with
  | nil => intro st _ cw h; cases h
  | cons hd rest ih =>
      intro st hnd cw hmem
      obtain ⟨c, w⟩ := hd
      simp only [List.map_cons, List.nodup_cons] at hnd
      rcases List.mem_cons.mp hmem with heq | hmemr
      · subst heq
        simp only [stAfter]
        rw [stAfter_lookup_not_mem rest _ _ hnd.1, lookupAssoc_setAssoc_self]
      · simp only [stAfter]
        rw [ih _ hnd.2 cw hmemr]
        have hne : c.id ≠ cw.1.id := by
          intro h
          exact hnd.1 (h ▸ List.mem_map_of_mem (fun cw2 => cw2.1.id) hmemr)
        rw [lookupAssoc_setAssoc_ne _ _ _ _ (Ne.symm hne)]

theorem currents_eq_vals (cands : List (Auth × Int)) :
    ∀ (st : CursorMap),
      (cands.map fun cw => cw.1.id).Nodup →
      currents st cands =
        cands.map fun cw => ((lookupAssoc st cw.1.id).getD 0) + cw.2 := by
  induction cands with
  | nil => intro st _; rfl
  | cons hd rest ih =>
      intro st hnd
      obtain ⟨c, w⟩ := hd
      simp only [List.map_cons, List.nodup_cons] at hnd
      simp only [currents, List.map_cons]
      rw [ih _ hnd.2]
      congr 1
      apply List.map_congr_left
      intro cw hmem
      have hne : c.id ≠ cw.1.id := by
        intro h
        exact hnd.1 (h ▸ List.mem_map_of_mem (fun cw2 => cw2.1.id) hmem)
      rw [lookupAssoc_setAssoc_ne _ _ _ _ (Ne.symm hne)]

theorem wrrLoop_idx_lt (cands : List (Auth × Int)) :
    ∀ (st : CursorMap) (i b : Nat) (s : Int) (bset : Bool),
      (bset = true → b < i) → (bset = true ∨ cands ≠ []) →
      (wrrLoop st cands i b s bset).2 < i + cands.length := by
  induction cands with
  | nil =>
      intro st i b s bset hb hne
      rcases hne with h | h
      · subst h
        simpa [wrrLoop] using hb rfl
      · exact absurd rfl h
  | cons hd rest ih =>
      intro st i b s bset hb _
      obtain ⟨c, w⟩ := hd
      simp only [wrrLoop]
      split_ifs with hcond
      · have hrec := ih (setAssoc st c.id (((lookupAssoc st c.id).getD 0) + w)) (i + 1) i
          (((lookupAssoc st c.id).getD 0) + w) true (fun _ => Nat.lt_succ_self i) (Or.inl rfl)
        simp only [List.length_cons]
        omega
      · have hbset : bset = true := by
          by_contra hf
          simp only [Bool.not_eq_true] at hf
          simp [hf] at hcond
        have hrec := ih (setAssoc st c.id (((lookupAssoc st c.id).getD 0) + w)) (i + 1) b s bset
          (fun _ => (hb hbset).trans (Nat.lt_succ_self i)) (Or.inl hbset)
        simp only [List.length_cons]
        omega

theorem wrrLoop_true_max (cands : List (Auth × Int)) :
    ∀ (st : CursorMap) (i b : Nat) (s : Int),
      ∃ sc : Int, s ≤ sc ∧ (∀ cur ∈ currents st cands, cur ≤ sc) ∧
        (((wrrLoop st cands i b s true).2 = b ∧ sc = s) ∨
          ∃ j, j < cands.length ∧
            (wrrLoop st cands i b s true).2 = i + j ∧
              sc = (currents st cands).getD j 0) := by
  induction cands with
  | nil =>
      intro st i b s
      exact ⟨s, le_rfl, by simp [currents], Or.inl ⟨rfl, rfl⟩⟩
  | cons hd rest ih =>
      intro st i b s
      obtain ⟨c, w⟩ := hd
      simp only [wrrLoop, currents, Bool.not_true, Bool.false_or]
      by_cases hlt : s < ((lookupAssoc st c.id).getD 0) + w
      · rw [if_pos (by simpa using hlt)]
        obtain ⟨sc, hsc1, hsc2, hsc3⟩ :=
          ih (setAssoc st c.id (((lookupAssoc st c.id).getD 0) + w)) (i + 1) i
            (((lookupAssoc st c.id).getD 0) + w)
        refine ⟨sc, le_of_lt (lt_of_lt_of_le hlt hsc1), ?_, ?_⟩
        · intro cur hcur
          rcases List.mem_cons.mp hcur with h | h
          · exact h ▸ hsc1
          · exact hsc2 cur h
        · rcases hsc3 with ⟨hidx, hval⟩ | ⟨j, hj, hidx, hval⟩
          · exact Or.inr ⟨0, by simp, by simpa using hidx, by simpa using hval⟩
          · refine Or.inr ⟨j + 1, by simpa using hj, ?_, ?_⟩
            · rw [hidx]; omega
            · simpa using hval
      · rw [if_neg (by simpa using hlt)]
        obtain ⟨sc, hsc1, hsc2, hsc3⟩ :=
          ih (setAssoc st c.id (((lookupAssoc st c.id).getD 0) + w)) (i + 1) b s
        refine ⟨sc, hsc1, ?_, ?_⟩
        · intro cur hcur
          rcases List.mem_cons.mp hcur with h | h
          · exact h ▸ le_trans (not_lt.mp hlt) hsc1
          · exact hsc2 cur h
        · rcases hsc3 with ⟨hidx, hval⟩ | ⟨j, hj, hidx, hval⟩
          · exact Or.inl ⟨hidx, hval⟩
          · refine Or.inr ⟨j + 1, by simpa using hj, ?_, ?_⟩
            · rw [hidx]; omega
            · simpa using hval

theorem wrrLoop_max (st : CursorMap) (c0 : Auth × Int) (rest : List (Auth × Int)) :
    ∃ sc : Int, (∀ cur ∈ currents st (c0 :: rest), cur ≤ sc) ∧
      ∃ j, j < (c0 :: rest).length ∧
        (wrrLoop st (c0 :: rest) 0 0 0 false).2 = j ∧
          sc = (currents st (c0 :: rest)).getD j 0 := by
  obtain ⟨c, w⟩ := c0
  simp only [wrrLoop, currents, Bool.not_false, Bool.true_or, if_pos]
  obtain ⟨sc, hsc1, hsc2, hsc3⟩ :=
    wrrLoop_true_max rest (setAssoc st c.id (((lookupAssoc st c.id).getD 0) + w)) 1 0
      (((lookupAssoc st c.id).getD 0) + w)
  refine ⟨sc, ?_, ?_⟩
  · intro cur hcur
    rcases List.mem_cons.mp hcur with h | h
    · exact h ▸ hsc1
    · exact hsc2 cur h
  · rcases hsc3 with ⟨hidx, hval⟩ | ⟨j, hj, hidx, hval⟩
    · exact ⟨0, by simp, by simpa using hidx, by simpa using hval⟩
    · refine ⟨j + 1, by simpa using hj, ?_, by simpa using hval⟩
      rw [hidx, Nat.add_comm]

theorem sum_map_add {α : Type} (l : List α) (f g : α → Int) :
    (l.map fun x => f x + g x).sum = (l.map f).sum + (l.map g).sum := by
  induction l with
  | nil => simp
  | cons hd tl ih => simp [ih]; ring

theorem sum_nonpos_of_forall (l : List Int) (h : ∀ x ∈ l, x ≤ 0) : l.sum ≤ 0 := by
  induction l with
  | nil => simp
  | cons hd tl ih =>
      simp only [List.sum_cons]
      have h1 := h hd (by simp)
      have h2 := ih fun x hx => h x (by simp [hx])
      linarith

theorem sum_nonneg_of_forall (l : List Int) (h : ∀ x ∈ l, 0 ≤ x) : 0 ≤ l.sum := by
  induction l with
  | nil => simp
  | cons hd tl ih =>
      simp only [List.sum_cons]
      have h1 := h hd (by simp)
      have h2 := ih fun x hx => h x (by simp [hx])
      linarith

theorem sum_pos_of_mem (l : List Int) (h0 : ∀ x ∈ l, 0 ≤ x) (x : Int)
    (hx : x ∈ l) (hp : 0 < x) : 0 < l.sum := by
  induction l with
  | nil => cases hx
  | cons hd tl ih =>
      simp only [List.sum_cons]
      rcases List.mem_cons.mp hx with h | h
      · subst h
        have ht : (0 : Int) ≤ tl.sum :=
          sum_nonneg_of_forall tl fun y hy => h0 y (by simp [hy])
        linarith
      · have hh : (0 : Int) ≤ hd := h0 hd (by simp)
        have ht := ih (fun y hy => h0 y (by simp [hy])) h
        linarith

theorem exists_pos_of_sum_pos (l : List Int) (h : 0 < l.sum) : ∃ x ∈ l, 0 < x := by
  by_contra hc
  push_neg at hc
  exact absurd (sum_nonpos_of_forall l fun x hx => hc x hx) (by linarith)

theorem cursorSum_stAfter (cands : List (Auth × Int)) (st : CursorMap)
    (hnd : (cands.map fun cw => cw.1.id).Nodup) :
    cursorSum (stAfter st cands) cands =
      cursorSum st cands + (cands.map fun cw => cw.2).sum := by
  unfold cursorSum
  have h1 : (cands.map fun cw => ((lookupAssoc (stAfter st cands) cw.1.id).getD 0)) =
      cands.map fun cw => ((lookupAssoc st cw.1.id).getD 0) + cw.2 := by
    apply List.map_congr_left
    intro cw hm
    rw [stAfter_lookup_mem cands st hnd cw hm]
    rfl
  rw [h1, sum_map_add]

theorem cursorSum_setAssoc_mem (cands : List (Auth × Int)) (st : CursorMap)
    (hnd : (cands.map fun cw => cw.1.id).Nodup) (c : Auth) (w : Int)
    (hmem : (c, w) ∈ cands) (v : Int) :
    cursorSum (setAssoc st c.id v) cands =
      cursorSum st cands - ((lookupAssoc st c.id).getD 0) + v := by
  induction cands generalizing st with
  | nil => cases hmem
  | cons hd rest ih =>
      obtain ⟨c0, w0⟩ := hd
      simp only [List.map_cons, List.nodup_cons] at hnd
      rcases List.mem_cons.mp hmem with heq | hmemr
      · injection heq with hc0 hw0
        subst hc0
        subst hw0
        simp only [cursorSum, List.map_cons, List.sum_cons]
        rw [lookupAssoc_setAssoc_self]
        have hrest : (rest.map fun cw => ((lookupAssoc (setAssoc st c.id v) cw.1.id).getD 0)) =
            rest.map fun cw => ((lookupAssoc st cw.1.id).getD 0) := by
          apply List.map_congr_left
          intro cw hm
          have hne : cw.1.id ≠ c.id := by
            intro h
            exact hnd.1 (h ▸ List.mem_map_of_mem (fun cw2 => cw2.1.id) hm)
          rw [lookupAssoc_setAssoc_ne _ _ _ _ hne]
        rw [hrest]
        simp only [Option.getD]
        ring
      · have hcin : c.id ∈ rest.map fun cw2 => cw2.1.id :=
          List.mem_map_of_mem (fun cw2 => cw2.1.id) hmemr
        have hne : c0.id ≠ c.id := fun h => hnd.1 (h ▸ hcin)
        simp only [cursorSum, List.map_cons, List.sum_cons]
        rw [lookupAssoc_setAssoc_ne _ _ _ _ hne]
        have hih := ih st hnd.2 hmemr
        simp only [cursorSum] at hih
        rw [hih]
        ring

theorem lookupAssoc_filter {α : Type} (p : String × α → Bool) (l : List (String × α))
    (k : String) (hp : ∀ v : α, p (k, v) = true) :
    lookupAssoc (l.filter p) k = lookupAssoc l k := by
  induction l with
  | nil => rfl
  | cons hd tl ih =>
      obtain ⟨k0, v0⟩ := hd
      by_cases hk : k0 = k
      · subst hk
        rw [List.filter_cons, if_pos (hp v0)]
        simp [lookupAssoc]
      · rw [List.filter_cons]
        by_cases hph : p (k0, v0) = true
        · rw [if_pos hph]
          simp only [lookupAssoc, if_neg hk]
          exact ih
        · rw [if_neg hph]
          simp only [lookupAssoc, if_neg hk]
          exact ih

theorem cursorSum_filter (cands : List (Auth × Int)) (st : CursorMap) :
    cursorSum (st.filter fun kv => cands.any fun cw => cw.1.id = kv.1) cands =
      cursorSum st cands := by
  unfold cursorSum
  congr 1
  apply List.map_congr_left
  intro cw hm
  rw [lookupAssoc_filter _ _ _ ?_]
  intro v
  simp only [List.any_eq_true]
  exact ⟨cw, hm, by simp⟩

theorem smoothWrrSelect_fst_eq (state : CursorMap) (cands : List (Auth × Int))
    (tw : Int) :
    smoothWrrSelect state cands tw =
      (let st1 := stAfter state cands
       let b := (wrrLoop state cands 0 0 0 false).2
       let st2 :=
         match cands.get? b with
         | some cw => setAssoc st1 cw.1.id (((lookupAssoc st1 cw.1.id).getD 0) - tw)
         | none => st1
       let st3 :=
         if cands.length < st2.length then
           st2.filter fun kv => cands.any fun cw => cw.1.id = kv.1
         else st2
       (st3, b)) := by
  simp only [smoothWrrSelect, wrrLoop_fst]

theorem smoothWrrSelect_snd (state : CursorMap) (cands : List (Auth × Int)) (tw : Int) :
    (smoothWrrSelect state cands tw).2 = (wrrLoop state cands 0 0 0 false).2 := rfl

theorem smoothWrrSelect_eval (state : CursorMap) (cands : List (Auth × Int)) (tw : Int)
    (b : Nat) (hb : (wrrLoop state cands 0 0 0 false).2 = b) (cw : Auth × Int)
    (hget : cands.get? b = some cw) :
    (smoothWrrSelect state cands tw).1 =
      (if cands.length <
          (setAssoc (stAfter state cands) cw.1.id
            (((lookupAssoc (stAfter state cands) cw.1.id).getD 0) - tw)).length then
        (setAssoc (stAfter state cands) cw.1.id
          (((lookupAssoc (stAfter state cands) cw.1.id).getD 0) - tw)).filter
          fun kv => cands.any fun cw2 => cw2.1.id = kv.1
      else
        setAssoc (stAfter state cands) cw.1.id
          (((lookupAssoc (stAfter state cands) cw.1.id).getD 0) - tw)) := by
  rw [smoothWrrSelect_fst_eq]
  simp only [hb, hget]

theorem smoothWrr_sum_preserved (st : CursorMap) (cands : List (Auth × Int))
    (hnd : (cands.map fun cw => cw.1.id).Nodup) :
    cursorSum (smoothWrrSelect st cands ((cands.map fun cw => cw.2).sum)).1 cands =
      cursorSum st cands := by
  cases cands with
  | nil => simp [cursorSum]
  | cons c0 rest =>
      have hblt : (wrrLoop st (c0 :: rest) 0 0 0 false).2 < (c0 :: rest).length := by
        have h := wrrLoop_idx_lt (c0 :: rest) st 0 0 0 false (by simp) (Or.inr (by simp))
        simpa using h
      have hget : (c0 :: rest).get? (wrrLoop st (c0 :: rest) 0 0 0 false).2 =
          some ((c0 :: rest).get ⟨(wrrLoop st (c0 :: rest) 0 0 0 false).2, hblt⟩) :=
        List.get?_eq_get hblt
      set cw := (c0 :: rest).get ⟨(wrrLoop st (c0 :: rest) 0 0 0 false).2, hblt⟩ with hcw
      have hmem : cw ∈ c0 :: rest := List.get_mem _ _ _
      rw [smoothWrrSelect_eval st (c0 :: rest) (((c0 :: rest).map fun cw2 => cw2.2).sum)
        _ rfl cw hget]
      set st1 := stAfter st (c0 :: rest) with hst1
      set tw := (((c0 :: rest).map fun cw2 => cw2.2).sum) with htw
      have h1 : cursorSum st1 (c0 :: rest) = cursorSum st (c0 :: rest) + tw :=
        cursorSum_stAfter (c0 :: rest) st hnd
      have hmem' : (cw.1, cw.2) ∈ c0 :: rest := hmem
      have h2 : cursorSum
          (setAssoc st1 cw.1.id (((lookupAssoc st1 cw.1.id).getD 0) - tw)) (c0 :: rest) =
          cursorSum st1 (c0 :: rest) - tw := by
        rw [cursorSum_setAssoc_mem (c0 :: rest) st1 hnd cw.1 cw.2 hmem' _]
        ring
      split_ifs with hlen
      · rw [cursorSum_filter, h2, h1]
        ring
      · rw [h2, h1]
        ring

theorem smoothWrr_zero_weight_never_best (st : CursorMap) (cands : List (Auth × Int))
    (tw : Int) (j : Nat) (cj : Auth) (wj : Int)
    (hnd : (cands.map fun cw => cw.1.id).Nodup)
    (hwnn : ∀ cw ∈ cands, 0 ≤ cw.2)
    (hzero : ∀ cw ∈ cands, cw.2 = 0 → ((lookupAssoc st cw.1.id).getD 0) ≤ 0)
    (hsum : 0 ≤ cursorSum st cands)
    (hpos : ∃ cw ∈ cands, 0 < cw.2)
    (hj : cands.get? j = some (cj, wj)) (hwj : wj = 0) :
    (smoothWrrSelect st cands tw).2 ≠ j := by
  obtain ⟨cp, hpmem, hppos⟩ := hpos
  cases cands with
  | nil => cases hpmem
  | cons c0 rest =>
      rw [smoothWrrSelect_snd]
      obtain ⟨sc, hmax, jw, hjlt, hwin, hval⟩ := wrrLoop_max st c0 rest
      rw [hwin]
      have hcv : currents st (c0 :: rest) =
          (c0 :: rest).map fun cw => ((lookupAssoc st cw.1.id).getD 0) + cw.2 :=
        currents_eq_vals (c0 :: rest) st hnd
      have hsv : 0 < (currents st (c0 :: rest)).sum := by
        rw [hcv, sum_map_add]
        have hw : 0 < ((c0 :: rest).map fun cw => cw.2).sum := by
          apply sum_pos_of_mem _ ?_ cp.2 ?_ hppos
          · intro x hx
            obtain ⟨cw, hcwm, hcweq⟩ := List.mem_map.mp hx
            exact hcweq ▸ hwnn cw hcwm
          · exact List.mem_map_of_mem (fun cw => cw.2) hpmem
        have hcs : cursorSum st (c0 :: rest) =
            ((c0 :: rest).map fun cw => ((lookupAssoc st cw.1.id).getD 0)).sum := rfl
        rw [hcs] at hsum
        linarith
      obtain ⟨v, hvmem, hvpos⟩ := exists_pos_of_sum_pos _ hsv
      have hscpos : 0 < sc := lt_of_lt_of_le hvpos (hmax v hvmem)
      intro hcontra
      subst hcontra
      have hmemj : (cj, wj) ∈ c0 :: rest := List.get?_mem hj
      have hjE : (c0 :: rest)[jw]? = some (cj, wj) := by
        simpa [List.get?_eq_getElem?] using hj
      have hg1 : ((c0 :: rest).map fun cw =>
          ((lookupAssoc st cw.1.id).getD 0) + cw.2)[jw]? =
          some (((lookupAssoc st cj.id).getD 0) + wj) := by
        rw [List.getElem?_map, hjE]
        rfl
      have hg2 : (currents st (c0 :: rest)).getD jw 0 =
          ((lookupAssoc st cj.id).getD 0) + wj := by
        rw [hcv, List.getD_eq_getElem?_getD, hg1]
        rfl
      have hle : ((lookupAssoc st cj.id).getD 0) ≤ 0 := hzero (cj, wj) hmemj hwj
      rw [hg2, hwj] at hval
      omega


/-- C10: smooth-WRR cursor conservation — with per-candidate ids distinct, one
completed selection adds each candidate's weight to its cursor and subtracts
the total weight from the winner, so the candidates' cursor sum is unchanged
(0 stays 0); consequently when every weight is nonnegative, weight-0 cursors
are nonpositive, the cursor sum is nonnegative and some candidate has positive
weight, a weight-0 candidate is never the selected index. -/
theorem smoothWrrInvariant :
    (∀ (st : CursorMap) (cands : List (Auth × Int)),
        (cands.map fun cw => cw.1.id).Nodup →
        cursorSum (smoothWrrSelect st cands ((cands.map fun cw => cw.2).sum)).1 cands =
          cursorSum st cands) ∧
    (∀ (st : CursorMap) (cands : List (Auth × Int)) (tw : Int) (j : Nat)
        (cj : Auth) (wj : Int),
        (cands.map fun cw => cw.1.id).Nodup →
        (∀ cw ∈ cands, 0 ≤ cw.2) →
        (∀ cw ∈ cands, cw.2 = 0 → ((lookupAssoc st cw.1.id).getD 0) ≤ 0) →
        0 ≤ cursorSum st cands →
        (∃ cw ∈ cands, 0 < cw.2) →
        cands.get? j = some (cj, wj) → wj = 0 →
        (smoothWrrSelect st cands tw).2 ≠ j) :=
  ⟨fun st cands hnd => smoothWrr_sum_preserved st cands hnd,
    fun st cands tw j cj wj h1 h2 h3 h4 h5 h6 h7 =>
      smoothWrr_zero_weight_never_best st cands tw j cj wj h1 h2 h3 h4 h5 h6 h7⟩

/-- Witness for C10 on a concrete two-candidate set (weights 0 and 5). -/
theorem smoothWrrInvariant_witness :
    ((c10Cands.map fun cw => cw.1.id).Nodup ∧
      cursorSum (smoothWrrSelect [] c10Cands ((c10Cands.map fun cw => cw.2).sum)).1
          c10Cands = cursorSum [] c10Cands) ∧
    ((∀ cw ∈ c10Cands, 0 ≤ cw.2) ∧ (∃ cw ∈ c10Cands, 0 < cw.2) ∧
      c10Cands.get? 0 = some ({ id := "a" }, 0) ∧
      (smoothWrrSelect [] c10Cands 5).2 ≠ 0) :=
  ⟨⟨by decide, smoothWrrInvariant.1 [] c10Cands (by decide)⟩,
    ⟨by decide, by decide, rfl,
      smoothWrrInvariant.2 [] c10Cands 5 0 { id := "a" } 0 (by decide) (by decide)
        (by decide) (by decide) (by decide) rfl rfl⟩⟩

theorem weightFor_unknown (store : Option Store) (a : Auth) (model : String)
    (now : GoTime) (h : (weightFor store a model now).2 = false) :
    (weightFor store a model now).1 = 0 := by
  simp only [weightFor] at h ⊢
  cases hl : lookupQuota store a (if trimStr model = "" then "*" else model) <;>
    simp [hl] at h ⊢

theorem pickCandidates_acc (store : Option Store) (model : String) (now : GoTime)
    (avail : List Auth) :
    ∀ (l1 : List (Auth × Int)) (n : Nat),
      avail.foldl
        (fun acc candidate =>
          let wk := weightFor store candidate model now
          if wk.2 && decide (wk.1 ≤ 0) then acc
          else ((acc.1 ++ [(candidate, wk.1)]), if !wk.2 then acc.2 + 1 else acc.2))
        (l1, n) =
      (l1 ++ (pickCandidatesR store model now avail).1,
        n + (pickCandidatesR store model now avail).2) := by
  induction avail with
  | nil =>
      intro l1 n
      simp [pickCandidatesR]
  | cons a rest ih =>
      intro l1 n
      simp only [List.foldl_cons, pickCandidatesR]
      by_cases hc : ((weightFor store a model now).2 &&
          decide ((weightFor store a model now).1 ≤ 0)) = true
      · rw [if_pos hc, if_pos hc]
        exact ih l1 n
      · rw [if_neg hc, if_neg hc]
        rw [ih (l1 ++ [(a, (weightFor store a model now).1)]) _]
        by_cases hu : (weightFor store a model now).2 <;>
          simp [hu, List.append_assoc] <;> omega

theorem pickCandidates_eq (store : Option Store) (model : String) (now : GoTime)
    (avail : List Auth) :
    pickCandidates store model now avail = pickCandidatesR store model now avail := by
  unfold pickCandidates
  rw [pickCandidates_acc]
  simp

theorem pickCandidatesR_mem (store : Option Store) (model : String) (now : GoTime)
    (avail : List Auth) :
    ∀ cw ∈ (pickCandidatesR store model now avail).1,
      cw.1 ∈ avail ∧ cw.2 = (weightFor store cw.1 model now).1 ∧
        ((weightFor store cw.1 model now).2 = true → 0 < cw.2) := by
  induction avail with
  | nil =>
      intro cw h
      simp [pickCandidatesR] at h
  | cons a rest ih =>
      intro cw h
      simp only [pickCandidatesR] at h
      by_cases hc : ((weightFor store a model now).2 &&
          decide ((weightFor store a model now).1 ≤ 0)) = true
      · rw [if_pos hc] at h
        obtain ⟨h1, h2, h3⟩ := ih cw h
        exact ⟨by simp [h1], h2, h3⟩
      · rw [if_neg hc] at h
        rcases List.mem_cons.mp h with heq | hmemr
        · subst heq
          refine ⟨by simp, rfl, ?_⟩
          intro hk
          simp only [Bool.and_eq_true, decide_eq_true_eq] at hc
          exact lt_of_not_le fun hle => hc ⟨hk, hle⟩
        · obtain ⟨h1, h2, h3⟩ := ih cw hmemr
          exact ⟨by simp [h1], h2, h3⟩

theorem pickCandidatesR_ids_sublist (store : Option Store) (model : String)
    (now : GoTime) (avail : List Auth) :
    List.Sublist ((pickCandidatesR store model now avail).1.map fun cw => cw.1)
      avail := by
  induction avail with
  | nil => simp [pickCandidatesR]
  | cons a rest ih =>
      simp only [pickCandidatesR]
      by_cases hc : ((weightFor store a model now).2 &&
          decide ((weightFor store a model now).1 ≤ 0)) = true
      · rw [if_pos hc]
        exact List.Sublist.cons a ih
      · rw [if_neg hc]
        simpa using List.Sublist.cons₂ a ih

theorem pickCandidatesR_keep (store : Option Store) (model : String) (now : GoTime)
    (avail : List Auth) (a : Auth) (ha : a ∈ avail)
    (hk : (weightFor store a model now).2 = true)
    (hp : 0 < (weightFor store a model now).1) :
    (a, (weightFor store a model now).1) ∈ (pickCandidatesR store model now avail).1 := by
  induction avail with
  | nil => cases ha
  | cons b rest ih =>
      simp only [pickCandidatesR]
      rcases List.mem_cons.mp ha with heq | hmem
      · subst heq
        rw [if_neg (by simp only [hk, Bool.true_and, decide_eq_true_eq]; omega)]
        exact List.mem_cons_self _ _
      · by_cases hc : ((weightFor store b model now).2 &&
            decide ((weightFor store b model now).1 ≤ 0)) = true
        · rw [if_pos hc]
          exact ih hmem
        · rw [if_neg hc]
          exact List.mem_cons_of_mem _ (ih hmem)

theorem pickCandidatesR_all_known_nonpos (store : Option Store) (model : String)
    (now : GoTime) (avail : List Auth)
    (h : ∀ a ∈ avail, (weightFor store a model now).2 = true →
        (weightFor store a model now).1 ≤ 0) :
    (pickCandidatesR store model now avail).1 =
      (avail.filter fun a => !(weightFor store a model now).2).map fun a => (a, 0) := by
  induction avail with
  | nil => simp [pickCandidatesR]
  | cons a rest ih =>
      simp only [pickCandidatesR, List.filter_cons]
      have hrest := ih fun x hx hkx => h x (List.mem_cons_of_mem _ hx) hkx
      by_cases hk : (weightFor store a model now).2 = true
      · have hle := h a (List.mem_cons_self _ _) hk
        simp [hk, hle, hrest]
      · have hk' : (weightFor store a model now).2 = false := by
          simpa using hk
        have hw0 : (weightFor store a model now).1 = 0 :=
          weightFor_unknown store a model now hk'
        simp [hk', hw0, hrest]

theorem pickCandidatesR_unknown_pos (store : Option Store) (model : String)
    (now : GoTime) (avail : List Auth)
    (h : ∃ a ∈ avail, (weightFor store a model now).2 = false) :
    0 < (pickCandidatesR store model now avail).2 := by
  induction avail with
  | nil => obtain ⟨a, ha, _⟩ := h; cases ha
  | cons b rest ih =>
      obtain ⟨a, ha, hu⟩ := h
      simp only [pickCandidatesR]
      rcases List.mem_cons.mp ha with heq | hmem
      · subst heq
        rw [if_neg (by simp [hu])]
        simp [hu]
      · have hr := ih ⟨a, hmem, hu⟩
        by_cases hc : ((weightFor store b model now).2 &&
            decide ((weightFor store b model now).1 ≤ 0)) = true
        · rw [if_pos hc]
          exact hr
        · rw [if_neg hc]
          by_cases hb : (weightFor store b model now).2 = true <;>
            simp [hb] <;> omega

theorem mem_insertByID (a b : Auth) (l : List Auth) :
    b ∈ insertByID a l ↔ b = a ∨ b ∈ l := by
  induction l with
  | nil => simp [insertByID]
  | cons c rest ih =>
      simp only [insertByID]
      split_ifs with hc
      · simp [List.mem_cons]
      · simp only [List.mem_cons, ih]
        tauto

theorem mem_sortByID (b : Auth) (l : List Auth) : b ∈ sortByID l ↔ b ∈ l := by
  induction l with
  | nil => simp [sortByID]
  | cons a rest ih =>
      simp only [sortByID, List.foldr_cons]
      rw [mem_insertByID]
      simp only [sortByID] at ih
      rw [ih]
      simp [List.mem_cons]

theorem roundRobinPick_some_mem (cur : Nat) (auths : List Auth) (a : Auth)
    (h : (roundRobinPick cur auths).1 = some a) : a ∈ auths := by
  unfold roundRobinPick at h
  cases htier : sortByID (topPriorityTier auths) with
  | nil =>
      rw [htier] at h
      simp at h
  | cons t ts =>
      rw [htier] at h
      simp only at h
      have hmem : a ∈ t :: ts := List.get?_mem h
      have h1 : a ∈ sortByID (topPriorityTier auths) := htier ▸ hmem
      have h2 : a ∈ topPriorityTier auths := (mem_sortByID _ _).mp h1
      cases auths with
      | nil => simp [topPriorityTier] at h2
      | cons a0 rest =>
          simp only [topPriorityTier] at h2
          exact (List.mem_filter.mp h2).1

theorem cursorSum_nil_state (cands : List (Auth × Int)) :
    cursorSum [] cands = 0 := by
  simp [cursorSum, lookupAssoc]

theorem quotaWeightedPick_ok_mem (store : Option Store)
    (cursors : List (String × CursorMap)) (rrCursor : Nat) (provider model : String)
    (now : GoTime) (available : List Auth) (a : Auth)
    (cs : List (String × CursorMap)) (rc : Nat)
    (h : quotaWeightedPick store cursors rrCursor provider model now available =
      (.ok a, cs, rc)) :
    ∃ cw ∈ (pickCandidatesR store model now available).1, cw.1 = a := by
  simp only [quotaWeightedPick, pickCandidates_eq] at h
  by_cases he : available.isEmpty = true
  · rw [if_pos he] at h
    simp at h
  · rw [if_neg he] at h
    by_cases hce : (pickCandidatesR store model now available).1.isEmpty = true
    · rw [if_pos hce] at h
      simp at h
    · rw [if_neg hce] at h
      by_cases htw : ((pickCandidatesR store model now available).1.map
          fun cw => cw.2).sum ≤ 0
      · rw [if_pos htw] at h
        by_cases hu : 0 < (pickCandidatesR store model now available).2
        · rw [if_pos hu] at h
          cases hrr : (roundRobinPick rrCursor
              ((pickCandidatesR store model now available).1.map fun cw => cw.1)).1 with
          | none =>
              rw [hrr] at h
              simp at h
          | some a2 =>
              rw [hrr] at h
              simp only [Prod.mk.injEq] at h
              obtain ⟨h1, _, _⟩ := h
              have ha2 : a2 = a := by injection h1
              have hmem := roundRobinPick_some_mem rrCursor _ a2 hrr
              obtain ⟨cw, hcwm, hcweq⟩ := List.mem_map.mp hmem
              exact ⟨cw, hcwm, by rw [hcweq, ha2]⟩
        · rw [if_neg hu] at h
          simp at h
      · rw [if_neg htw] at h
        cases hg : (pickCandidatesR store model now available).1.get?
            (smoothWrrSelect
              ((lookupAssoc cursors (provider ++ ":" ++ NormalizeModelKey model)).getD [])
              (pickCandidatesR store model now available).1
              (((pickCandidatesR store model now available).1.map fun cw => cw.2).sum)).2
            with
        | none =>
            rw [hg] at h
            simp at h
        | some cw =>
            rw [hg] at h
            simp only [Prod.mk.injEq] at h
            obtain ⟨h1, _, _⟩ := h
            have hcw : cw.1 = a := by injection h1
            exact ⟨cw, List.get?_mem hg, hcw⟩

set_option maxHeartbeats 2000000 in
/-- C2 (amended): (a) a returned candidate never has known non-positive
weight; (b) with fresh per-key cursor state, distinct auth ids and some
candidate of known positive weight, the pick succeeds and returns a candidate
of known positive weight; (c) when every candidate's weight is known and
non-positive the pick fails with auth-not-found; (d) when no known weight is
positive but unknown-weight candidates exist, the pick delegates to the
round-robin fallback over exactly the unknown-weight candidates. -/
theorem quotaWeightedPickSpec :
    (∀ (store : Option Store) (cursors : List (String × CursorMap)) (rrCursor : Nat)
        (provider model : String) (now : GoTime) (available : List Auth) (a : Auth)
        (cs : List (String × CursorMap)) (rc : Nat),
        quotaWeightedPick store cursors rrCursor provider model now available =
          (.ok a, cs, rc) →
        (weightFor store a model now).2 = true →
        0 < (weightFor store a model now).1) ∧
    (∀ (store : Option Store) (cursors : List (String × CursorMap)) (rrCursor : Nat)
        (provider model : String) (now : GoTime) (available : List Auth),
        (available.map Auth.id).Nodup →
        lookupAssoc cursors (provider ++ ":" ++ NormalizeModelKey model) = none →
        (∃ a ∈ available, (weightFor store a model now).2 = true ∧
            0 < (weightFor store a model now).1) →
        ∃ a cs rc,
          quotaWeightedPick store cursors rrCursor provider model now available =
            (.ok a, cs, rc) ∧ (weightFor store a model now).2 = true ∧
            0 < (weightFor store a model now).1) ∧
    (∀ (store : Option Store) (cursors : List (String × CursorMap)) (rrCursor : Nat)
        (provider model : String) (now : GoTime) (available : List Auth),
        (∀ a ∈ available, (weightFor store a model now).2 = true ∧
            (weightFor store a model now).1 ≤ 0) →
        quotaWeightedPick store cursors rrCursor provider model now available =
          (.authNotFound, cursors, rrCursor)) ∧
    (∀ (store : Option Store) (cursors : List (String × CursorMap)) (rrCursor : Nat)
        (provider model : String) (now : GoTime) (available : List Auth),
        (∀ a ∈ available, (weightFor store a model now).2 = true →
            (weightFor store a model now).1 ≤ 0) →
        (∃ a ∈ available, (weightFor store a model now).2 = false) →
        quotaWeightedPick store cursors rrCursor provider model now available =
          ((match (roundRobinPick rrCursor (available.filter fun a2 =>
              !(weightFor store a2 model now).2)).1 with
            | some a2 => PickResult.ok a2
            | none => PickResult.authNotFound),
            cursors,
            (roundRobinPick rrCursor (available.filter fun a2 =>
              !(weightFor store a2 model now).2)).2)) := by
  refine ⟨?_, ?_, ?_, ?_⟩
  · -- (a)
    intro store cursors rrCursor provider model now available a cs rc h hk
    obtain ⟨cw, hm, heq⟩ :=
      quotaWeightedPick_ok_mem store cursors rrCursor provider model now available
        a cs rc h
    obtain ⟨_, h2, h3⟩ := pickCandidatesR_mem store model now available cw hm
    rw [← heq] at hk ⊢
    rw [← h2]
    exact h3 hk
  · -- (b)
    intro store cursors rrCursor provider model now available hnd hcur hex
    obtain ⟨ap, hap, hapk, happ⟩ := hex
    have hne : available ≠ [] := fun hh => by subst hh; cases hap
    have he : ¬(available.isEmpty = true) := fun hh => hne (List.isEmpty_iff.mp hh)
    have hkeep := pickCandidatesR_keep store model now available ap hap hapk happ
    have hcne : (pickCandidatesR store model now available).1 ≠ [] :=
      List.ne_nil_of_mem hkeep
    have hcempty : ¬((pickCandidatesR store model now available).1.isEmpty = true) :=
      fun hh => hcne (List.isEmpty_iff.mp hh)
    have hwnn : ∀ cw ∈ (pickCandidatesR store model now available).1, 0 ≤ cw.2 := by
      intro cw hm
      obtain ⟨_, h2, h3⟩ := pickCandidatesR_mem store model now available cw hm
      by_cases hkk : (weightFor store cw.1 model now).2 = true
      · exact le_of_lt (h3 hkk)
      · rw [h2, weightFor_unknown store cw.1 model now (by simpa using hkk)]
    have htw : 0 < (((pickCandidatesR store model now available).1.map
        fun cw => cw.2).sum) := by
      apply sum_pos_of_mem _ ?_ (weightFor store ap model now).1 ?_ happ
      · intro x hx
        obtain ⟨cw, hm, he2⟩ := List.mem_map.mp hx
        exact he2 ▸ hwnn cw hm
      · exact List.mem_map_of_mem (fun cw => cw.2) hkeep
    have hblt : (wrrLoop [] (pickCandidatesR store model now available).1 0 0 0 false).2 <
        (pickCandidatesR store model now available).1.length := by
      cases hcand : (pickCandidatesR store model now available).1 with
      | nil => exact absurd hcand hcne
      | cons c0 rest2 =>
          have hl := wrrLoop_idx_lt (c0 :: rest2) [] 0 0 0 false (by simp)
            (Or.inr (by simp))
          simpa using hl
    have hb2 : (smoothWrrSelect [] (pickCandidatesR store model now available).1
        (((pickCandidatesR store model now available).1.map fun cw => cw.2).sum)).2 <
        (pickCandidatesR store model now available).1.length := by
      rw [smoothWrrSelect_snd]
      exact hblt
    have hget := List.get?_eq_get hb2
    have hcwm : (pickCandidatesR store model now available).1.get
        ⟨(smoothWrrSelect [] (pickCandidatesR store model now available).1
            (((pickCandidatesR store model now available).1.map fun cw => cw.2).sum)).2,
          hb2⟩ ∈ (pickCandidatesR store model now available).1 := List.get_mem _ _ _
    obtain ⟨_, h2, h3⟩ := pickCandidatesR_mem store model now available _ hcwm
    have hfin : (weightFor store ((pickCandidatesR store model now available).1.get
        ⟨(smoothWrrSelect [] (pickCandidatesR store model now available).1
            (((pickCandidatesR store model now available).1.map fun cw => cw.2).sum)).2,
          hb2⟩).1 model now).2 = true := by
      by_contra hkk
      have hkf : (weightFor store ((pickCandidatesR store model now available).1.get
          ⟨(smoothWrrSelect [] (pickCandidatesR store model now available).1
              (((pickCandidatesR store model now available).1.map fun cw => cw.2).sum)).2,
            hb2⟩).1 model now).2 = false := by simpa using hkk
      have hw0 : ((pickCandidatesR store model now available).1.get
          ⟨(smoothWrrSelect [] (pickCandidatesR store model now available).1
              (((pickCandidatesR store model now available).1.map fun cw => cw.2).sum)).2,
            hb2⟩).2 = 0 := by
        rw [h2, weightFor_unknown store _ model now hkf]
      have hndc : ((pickCandidatesR store model now available).1.map
          fun cw2 => cw2.1.id).Nodup := by
        have hsub := pickCandidatesR_ids_sublist store model now available
        have hsub2 := List.Sublist.map Auth.id hsub
        rw [List.map_map] at hsub2
        exact List.Nodup.sublist (by simpa [Function.comp] using hsub2) hnd
      have hzero : ∀ cw2 ∈ (pickCandidatesR store model now available).1,
          cw2.2 = 0 → ((lookupAssoc ([] : CursorMap) cw2.1.id).getD 0) ≤ 0 := by
        intro cw2 _ _
        simp [lookupAssoc]
      have hsum0 : 0 ≤ cursorSum [] (pickCandidatesR store model now available).1 := by
        rw [cursorSum_nil_state]
      have hposc : ∃ cw2 ∈ (pickCandidatesR store model now available).1, 0 < cw2.2 :=
        ⟨(ap, (weightFor store ap model now).1), hkeep, happ⟩
      exact smoothWrr_zero_weight_never_best []
        (pickCandidatesR store model now available).1
        (((pickCandidatesR store model now available).1.map fun cw => cw.2).sum)
        (smoothWrrSelect [] (pickCandidatesR store model now available).1
          (((pickCandidatesR store model now available).1.map fun cw => cw.2).sum)).2
        _ _ hndc hwnn hzero hsum0 hposc hget hw0 rfl
    refine ⟨((pickCandidatesR store model now available).1.get
        ⟨(smoothWrrSelect [] (pickCandidatesR store model now available).1
            (((pickCandidatesR store model now available).1.map fun cw => cw.2).sum)).2,
          hb2⟩).1,
      setAssoc cursors (provider ++ ":" ++ NormalizeModelKey model)
        (smoothWrrSelect [] (pickCandidatesR store model now available).1
          (((pickCandidatesR store model now available).1.map fun cw => cw.2).sum)).1,
      rrCursor, ?_, hfin, ?_⟩
    · simp only [quotaWeightedPick, pickCandidates_eq]
      rw [if_neg he, if_neg hcempty, if_neg (not_le.mpr htw), hcur, Option.getD_none,
        hget]
    · rw [← h2]
      exact h3 hfin
  · -- (c)
    intro store cursors rrCursor provider model now available h
    have hchar := pickCandidatesR_all_known_nonpos store model now available
      fun a ha _ => (h a ha).2
    have hfilter : available.filter (fun a => !(weightFor store a model now).2) = [] := by
      apply List.filter_eq_nil.mpr
      intro a ha
      simp [(h a ha).1]
    have hcand : (pickCandidatesR store model now available).1 = [] := by
      rw [hchar, hfilter]
      rfl
    simp only [quotaWeightedPick, pickCandidates_eq]
    by_cases he : available.isEmpty = true
    · rw [if_pos he]
    · rw [if_neg he, hcand]
      simp
  · -- (d)
    intro store cursors rrCursor provider model now available h hex
    obtain ⟨au, hau, huf⟩ := hex
    have hne : available ≠ [] := fun hh => by subst hh; cases hau
    have he : ¬(available.isEmpty = true) := fun hh => hne (List.isEmpty_iff.mp hh)
    have hchar := pickCandidatesR_all_known_nonpos store model now available h
    have humem : au ∈ available.filter (fun a => !(weightFor store a model now).2) :=
      List.mem_filter.mpr ⟨hau, by simp [huf]⟩
    have hfne : available.filter (fun a => !(weightFor store a model now).2) ≠ [] :=
      List.ne_nil_of_mem humem
    have hcne : (pickCandidatesR store model now available).1 ≠ [] := by
      rw [hchar]
      intro hh
      exact hfne (List.map_eq_nil.mp hh)
    have hcempty : ¬((pickCandidatesR store model now available).1.isEmpty = true) :=
      fun hh => hcne (List.isEmpty_iff.mp hh)
    have htw0 : (((pickCandidatesR store model now available).1.map
        fun cw => cw.2).sum) = 0 := by
      rw [hchar, List.map_map]
      have hcomp : ((fun cw : Auth × Int => cw.2) ∘ fun a : Auth =>
          ((a, 0) : Auth × Int)) = fun a : Auth => (0 : Int) := rfl
      rw [hcomp]
      simp
    have hids : ((pickCandidatesR store model now available).1.map fun cw => cw.1) =
        available.filter (fun a => !(weightFor store a model now).2) := by
      rw [hchar, List.map_map]
      have hcomp : ((fun cw : Auth × Int => cw.1) ∘ fun a : Auth =>
          ((a, 0) : Auth × Int)) = fun a : Auth => a := rfl
      rw [hcomp]
      simp
    have hunk : 0 < (pickCandidatesR store model now available).2 :=
      pickCandidatesR_unknown_pos store model now available ⟨au, hau, huf⟩
    simp only [quotaWeightedPick, pickCandidates_eq]
    rw [if_neg he, if_neg hcempty, if_pos (le_of_eq htw0), if_pos hunk, hids]
    cases hrr : (roundRobinPick rrCursor
        (available.filter fun a2 => !(weightFor store a2 model now).2)).1 <;>
      rfl

theorem quotaToWeight_intPercent (p : Int) (hp : 0 < p) (hple : p ≤ 100)
    (u now : GoTime) :
    quotaToWeight { percent := ⟨p, 0⟩, updatedAt := u, resetTime := goZeroTime } now =
      p ^ 3 := by
  simp only [quotaToWeight]
  have hpr : GoFloat.toReal ⟨p, 0⟩ = (p : ℝ) := by simp [GoFloat.toReal]
  have hp' : (0 : ℝ) < (p : ℝ) := by exact_mod_cast hp
  have hple' : (p : ℝ) ≤ 100 := by exact_mod_cast hple
  rw [hpr, if_neg (not_le.mpr hp'), if_neg (not_lt.mpr hple'),
    if_neg (not_le.mpr (by positivity : (0 : ℝ) < (p : ℝ) ^ 3)),
    if_pos (show GoTime.isZero goZeroTime = true from rfl)]
  have hcast : ((p : ℝ) ^ 3 * 1) = ((p ^ 3 : ℤ) : ℝ) := by push_cast; ring
  rw [hcast, round_intCast,
    if_neg (not_lt.mpr (by positivity : (0 : ℤ) ≤ p ^ 3))]

theorem quotaToWeight_nonposPercent (p : Int) (hp : p ≤ 0) (e : Nat)
    (u t now : GoTime) :
    quotaToWeight { percent := ⟨p, e⟩, updatedAt := u, resetTime := t } now = 0 := by
  simp only [quotaToWeight]
  have hpr : GoFloat.toReal ⟨p, e⟩ = (p : ℝ) / 10 ^ e := rfl
  have hp' : ((p : ℝ) : ℝ) ≤ 0 := by exact_mod_cast hp
  rw [hpr, if_pos (div_nonpos_of_nonpos_of_nonneg hp' (by positivity))]

theorem quotaToWeight_halfPercent (now : GoTime) :
    quotaToWeight
      { percent := ⟨5, 1⟩, updatedAt := goZeroTime, resetTime := goZeroTime } now =
      0 := by
  simp only [quotaToWeight]
  have hpr : GoFloat.toReal ⟨5, 1⟩ = 1 / 2 := by norm_num [GoFloat.toReal]
  rw [hpr, if_neg (by norm_num : ¬((1 / 2 : ℝ) ≤ 0)),
    if_neg (by norm_num : ¬((100 : ℝ) < 1 / 2)),
    if_neg (by norm_num : ¬((1 / 2 : ℝ) ^ 3 ≤ 0)),
    if_pos (show GoTime.isZero goZeroTime = true from rfl)]
  have h8 : ((1 / 2 : ℝ) ^ 3 * 1) = 1 / 8 := by norm_num
  rw [h8]
  have hr : round ((1 / 8 : ℝ)) = 0 := by
    rw [round_eq]
    apply Int.floor_eq_iff.mpr
    norm_num
  rw [hr]
  norm_num

theorem c2w_weightFor : weightFor (some c2wStore) c2wAuth "m" 0 = (1000000, true) := by
  have hlook : lookupQuota (some c2wStore) c2wAuth
      (if trimStr "m" = "" then "*" else "m") =
      some { percent := ⟨100, 0⟩, updatedAt := goZeroTime, resetTime := goZeroTime } := by
    decide
  simp only [weightFor, hlook]
  rw [quotaToWeight_intPercent 100 (by norm_num) (by norm_num) goZeroTime 0]
  norm_num

theorem c2z_weightFor : weightFor (some c2zStore) c2zAuth "m" 0 = (0, true) := by
  have hlook : lookupQuota (some c2zStore) c2zAuth
      (if trimStr "m" = "" then "*" else "m") =
      some { percent := ⟨0, 0⟩, updatedAt := goZeroTime, resetTime := goZeroTime } := by
    decide
  simp only [weightFor, hlook]
  rw [quotaToWeight_nonposPercent 0 le_rfl 0 goZeroTime goZeroTime 0]

theorem c2x_weightForA : weightFor (some c2xStore) c2xAuthA "m" 0 = (0, true) := by
  have hlook : lookupQuota (some c2xStore) c2xAuthA
      (if trimStr "m" = "" then "*" else "m") =
      some { percent := ⟨5, 1⟩, updatedAt := goZeroTime, resetTime := goZeroTime } := by
    decide
  simp only [weightFor, hlook]
  rw [quotaToWeight_halfPercent 0]

theorem c2w_pick : quotaWeightedPick (some c2wStore) [] 0 "p" "m" 0 [c2wAuth] =
    (.ok c2wAuth, [("p:m", [("w1", 0)])], 0) := by
  have hpc : pickCandidatesR (some c2wStore) "m" 0 [c2wAuth] =
      ([(c2wAuth, 1000000)], 0) := by
    simp [pickCandidatesR, c2w_weightFor]
  simp only [quotaWeightedPick, pickCandidates_eq, hpc]
  rfl

/-- C2 counterexample to the literal claim: `c2xAuthA` has a *known positive
quota* (percent 0.5), but its computed weight rounds to 0, so it is excluded
and the unknown-quota candidate `c2xAuthB` is returned even though a
known-positive-quota candidate exists. -/
theorem quotaWeightedPick_claim_counterexample :
    (∃ q, lookupQuota (some c2xStore) c2xAuthA "m" = some q ∧
        GoFloat.blt ⟨0, 0⟩ q.percent = true) ∧
    (weightFor (some c2xStore) c2xAuthB "m" 0).2 = false ∧
    quotaWeightedPick (some c2xStore) [] 0 "p" "m" 0 [c2xAuthA, c2xAuthB] =
      (.ok c2xAuthB, [], 1) := by
  refine ⟨⟨{ percent := ⟨5, 1⟩, updatedAt := goZeroTime, resetTime := goZeroTime },
    by decide, by decide⟩, rfl, ?_⟩
  have hwB : weightFor (some c2xStore) c2xAuthB "m" 0 = (0, false) := rfl
  have hpc : pickCandidatesR (some c2xStore) "m" 0 [c2xAuthA, c2xAuthB] =
      ([(c2xAuthB, 0)], 1) := by
    simp [pickCandidatesR, c2x_weightForA, hwB]
  simp only [quotaWeightedPick, pickCandidates_eq, hpc]
  rfl

/-- Witness for C2 at concrete configurations: a stored 100-percent quota
(parts a and b), a stored zero-percent quota (part c), and a single
unknown-quota auth (part d). -/
theorem quotaWeightedPickSpec_witness :
    ((weightFor (some c2wStore) c2wAuth "m" 0).2 = true ∧
      0 < (weightFor (some c2wStore) c2wAuth "m" 0).1) ∧
    (∃ a cs rc, quotaWeightedPick (some c2wStore) [] 0 "p" "m" 0 [c2wAuth] =
        (.ok a, cs, rc) ∧ (weightFor (some c2wStore) a "m" 0).2 = true ∧
        0 < (weightFor (some c2wStore) a "m" 0).1) ∧
    quotaWeightedPick (some c2zStore) [] 0 "p" "m" 0 [c2zAuth] =
      (.authNotFound, [], 0) ∧
    quotaWeightedPick (some c2xStore) [] 0 "p" "m" 0 [c2xAuthB] =
      (.ok c2xAuthB, [], 1) := by
  refine ⟨⟨by rw [c2w_weightFor], ?_⟩, ?_, ?_, ?_⟩
  · exact quotaWeightedPickSpec.1 (some c2wStore) [] 0 "p" "m" 0 [c2wAuth] c2wAuth
      [("p:m", [("w1", 0)])] 0 c2w_pick (by rw [c2w_weightFor])
  · exact quotaWeightedPickSpec.2.1 (some c2wStore) [] 0 "p" "m" 0 [c2wAuth]
      (by decide) rfl
      ⟨c2wAuth, List.mem_singleton_self _, by rw [c2w_weightFor],
        by rw [c2w_weightFor]; norm_num⟩
  · exact quotaWeightedPickSpec.2.2.1 (some c2zStore) [] 0 "p" "m" 0 [c2zAuth]
      (by
        intro a ha
        have heq : a = c2zAuth := by simpa using ha
        subst heq
        rw [c2z_weightFor]
        exact ⟨rfl, le_refl 0⟩)
  · have happl := quotaWeightedPickSpec.2.2.2 (some c2xStore) [] 0 "p" "m" 0 [c2xAuthB]
      (by
        intro a ha _
        have heq : a = c2xAuthB := by simpa using ha
        subst heq
        exact le_of_eq (show (weightFor (some c2xStore) c2xAuthB "m" 0).1 = 0
          from rfl))
      ⟨c2xAuthB, List.mem_singleton_self _, rfl⟩
    exact happl.trans rfl

end CLIProxy
